import Mathlib

/-!
Verification of the tabular-to-store migration pipeline.

Shallow embedding of the migration engine of this repository:
`scripts/migrate_to_mongodb.py` (document backend: row transformation,
record-identity key, upsert batches, run statistics) and
`scripts/migrate_to_supabase.py` (relational backend: entity extraction,
conflict-ignoring dimension inserts, fact-row insertion).

Python/pandas scalar values are embedded by `Value`; `Value.null` stands for
both Python `None` and a pandas `NaN` (the two cases `pd.isna` reports).
Python exceptions relevant to the embedded code paths are `PyErr`.
-/

namespace Doved

/-- A raw CSV cell as pandas hands it to the migration code:
`null` covers `None`/`NaN`, otherwise a string, a number, or a bool.
Numbers are embedded as rationals. -/
inductive Value where
  | null
  | str (s : String)
  | num (q : ℚ)
  | bool (b : Bool)
deriving DecidableEq

/-- The Python exceptions the embedded code can raise or catch. -/
inductive PyErr where
  | typeError
  | valueError
  | zeroDivisionError
  | attributeError
deriving DecidableEq

/-- A raw row: ordered association of column name to cell value. -/
abbrev Row := List (String × Value)

/-- `row.get(col)` on a pandas Series: the cell if the column exists
(`NaN` cells are `Value.null`), otherwise the default `None`. -/
def getCol (r : Row) (c : String) : Value :=
  match r.lookup c with
  | some v => v
  | none => Value.null

/-- `row.get(col, default)` with an explicit default. -/
def getColD (r : Row) (c : String) (d : Value) : Value :=
  match r.lookup c with
  | some v => v
  | none => d

/-- `clean_value` from `transform_record`: `None` for `pd.isna(value)`,
the empty string and the literal string `"nan"`; otherwise the value. -/
def cleanV (v : Value) : Option Value :=
  match v with
  | .null => none
  | .str s => if s = "" ∨ s = "nan" then none else some (.str s)
  | v => some v

/-- Python `str()` rendering of a non-None scalar.  String and bool
renderings are exact; the numeric rendering is a deterministic stand-in
(the claims only exercise string-valued key columns). -/
def pyStr : Value → String
  | .null => "None"
  | .str s => s
  | .bool b => if b then "True" else "False"
  | .num q => if q.den = 1 then toString q.num else toString q.num ++ "/" ++ toString q.den

/-- Python `bool()` of an optional cleaned value (`bool(None) = False`). -/
def pyBool : Option Value → Bool
  | none => false
  | some .null => false
  | some (.str s) => decide (s ≠ "")
  | some (.num q) => decide (q ≠ 0)
  | some (.bool b) => b

/-- Terminal values of a transformed document: cleaned scalars, parsed
timestamps (`rat`), coerced booleans and genre lists.  `null` is a stored
Python `None`. -/
inductive PyLeaf where
  | null
  | str (s : String)
  | rat (q : ℚ)
  | boolV (b : Bool)
  | list (gs : List String)
deriving DecidableEq

/-- A value of the top-level document dictionary: a leaf or a nested group. -/
inductive PyVal where
  | leaf (v : PyLeaf)
  | dict (g : List (String × PyLeaf))
deriving DecidableEq

/-- A transformed document: the ordered top-level Python dict. -/
abbrev Doc := List (String × PyVal)

/-- Embeds an optional cleaned value as the leaf stored in the document. -/
def ov : Option Value → PyLeaf
  | none => .null
  | some .null => .null
  | some (.str s) => .str s
  | some (.num q) => .rat q
  | some (.bool b) => .boolV b

/-- Embeds an optional parsed timestamp / rate as a stored leaf. -/
def oq : Option ℚ → PyLeaf
  | none => .null
  | some q => .rat q

/-- Python truthiness of a stored leaf. -/
def pyTruthy : PyLeaf → Bool
  | .null => false
  | .str s => decide (s ≠ "")
  | .rat q => decide (q ≠ 0)
  | .boolV b => b
  | .list gs => decide (gs ≠ [])

/-- Digit-string value, most significant digit first. -/
def digitsVal (cs : List Char) : ℕ :=
  cs.foldl (fun n c => n * 10 + (c.toNat - 48)) 0

/-- Python `float()` on a string, for plain decimal literals with an
optional sign and decimal point (surrounding whitespace stripped).
Exponent forms, infinities and `nan` literals are outside the model;
they do not decide any claim (an unparsable string is a `ValueError`
either way). -/
def strToRat? (s : String) : Option ℚ :=
  let t := s.trim
  let (sign, body) : ℚ × String :=
    if t.startsWith "-" then (-1, t.drop 1)
    else if t.startsWith "+" then (1, t.drop 1)
    else (1, t)
  match body.splitOn "." with
  | [ip] =>
      if ip.length > 0 ∧ ip.toList.all Char.isDigit then
        some (sign * (digitsVal ip.toList : ℚ))
      else none
  | [ip, fp] =>
      if ip.length + fp.length > 0 ∧ (ip.toList ++ fp.toList).all Char.isDigit then
        some (sign * ((digitsVal ip.toList : ℚ) + (digitsVal fp.toList : ℚ) / (10 ^ fp.length)))
      else none
  | _ => none

/-- Python `float()` on a stored document leaf: `TypeError` on `None`,
`ValueError` on an unparsable string. -/
def pyFloatE : PyLeaf → Except PyErr ℚ
  | .null => .error .typeError
  | .rat q => .ok q
  | .boolV b => .ok (if b then 1 else 0)
  | .str s =>
      match strToRat? s with
      | some q => .ok q
      | none => .error .valueError
  | .list _ => .error .typeError

/-- `parse_timestamp` of `transform_record`: `None` for `pd.isna(ts_str)`,
otherwise `pd.to_datetime` which the bare `except` turns into `None` on
failure.  The external pandas parser is the parameter `td`: `some q` is a
successful parse to an instant (embedded as a rational), `none` covers both
an unparsable value and a raised-and-caught error. -/
def parse_timestamp (td : Value → Option ℚ) (v : Value) : Option ℚ :=
  match v with
  | .null => none
  | w => td w

/-- `parse_genres` of `transform_record`: `[]` for `NaN`/empty string, else
split `str(x)` on commas, strip, drop empty tokens. -/
def parse_genres (v : Value) : List String :=
  match v with
  | .null => []
  | .str "" => []
  | w => (((pyStr w).splitOn ",").map String.trim).filter (fun g => decide (g ≠ ""))

/-- One component of the `_id` f-string: `f"{clean_value(row.get(c, ''))}"`,
so every blank component renders as the literal text `None`. -/
def fstrClean (v : Value) : String :=
  match cleanV v with
  | none => "None"
  | some w => pyStr w

/-- The document `_id`: the three cleaned components joined with `_`. -/
def recordId (row : Row) : String :=
  fstrClean (getColD row "spotify_track_uri" (.str "")) ++ "_" ++
    fstrClean (getColD row "username" (.str "")) ++ "_" ++
    fstrClean (getColD row "ts_x" (.str ""))

/-- The completion-rate computation of `transform_record`: guarded by the
truthiness of the two stored leaves, `float` conversions and the division
wrapped in `try/except (ValueError, ZeroDivisionError)`; the result is
capped above at 1 (`min(completion_rate, 1.0)`).  A `TypeError` would
escape the `except` clause, hence the `Except` result. -/
def completionRate (ms dur : PyLeaf) : Except PyErr (Option ℚ) :=
  if pyTruthy ms && pyTruthy dur then
    match pyFloatE ms with
    | .error .typeError => .error .typeError
    | .error _ => .ok none
    | .ok m =>
      match pyFloatE dur with
      | .error .typeError => .error .typeError
      | .error _ => .ok none
      | .ok d => if d = 0 then .ok none else .ok (some (min (m / d) 1))
  else .ok none

/-- The `user` group of the document, before cleanup. -/
def mkUserDict (row : Row) : List (String × PyLeaf) :=
  [("username", ov (cleanV (getCol row "username"))),
   ("platform", ov (cleanV (getCol row "platform"))),
   ("country", ov (cleanV (getCol row "conn_country"))),
   ("ip_address", ov (cleanV (getCol row "ip_addr_decrypted"))),
   ("user_agent", ov (cleanV (getCol row "user_agent_decrypted")))]

/-- The `track` group of the document, before cleanup. -/
def mkTrackDict (row : Row) : List (String × PyLeaf) :=
  [("name", ov (cleanV (getCol row "master_metadata_track_name_x"))),
   ("artist", ov (cleanV (getCol row "master_metadata_album_artist_name_x"))),
   ("album", ov (cleanV (getCol row "master_metadata_album_album_name_x"))),
   ("uri", ov (cleanV (getCol row "Track URI"))),
   ("duration_ms", ov (cleanV (getCol row "Track Duration (ms)_releases"))),
   ("track_number", ov (cleanV (getCol row "Track Number_releases"))),
   ("disc_number", ov (cleanV (getCol row "Disc Number_releases"))),
   ("preview_url", ov (cleanV (getCol row "Track Preview URL_releases"))),
   ("popularity", ov (cleanV (getCol row "Popularity_releases"))),
   ("isrc", ov (cleanV (getCol row "ISRC_releases")))]

/-- The `album` group of the document, before cleanup. -/
def mkAlbumDict (row : Row) : List (String × PyLeaf) :=
  [("name", ov (cleanV (getCol row "Album Name_releases"))),
   ("uri", ov (cleanV (getCol row "Album URI_releases"))),
   ("artist_name", ov (cleanV (getCol row "Album Artist Name(s)_releases"))),
   ("artist_uri", ov (cleanV (getCol row "Album Artist URI(s)_releases"))),
   ("release_date", ov (cleanV (getCol row "Album Release Date_releases"))),
   ("image_url", ov (cleanV (getCol row "Album Image URL_releases"))),
   ("genres", .list (parse_genres (getCol row "Album Genres"))),
   ("label", ov (cleanV (getCol row "Label")))]

/-- The `artist` group of the document, before cleanup. -/
def mkArtistDict (row : Row) : List (String × PyLeaf) :=
  [("name", ov (cleanV (getCol row "Artist Name(s)_releases"))),
   ("uri", ov (cleanV (getCol row "Artist URI(s)_releases"))),
   ("genres", .list (parse_genres (getCol row "Artist Genres")))]

/-- The `listening` group of the document, before cleanup; `cr` is the
already computed completion rate. -/
def mkListeningDict (row : Row) (cr : Option ℚ) : List (String × PyLeaf) :=
  [("ms_played", ov (cleanV (getCol row "ms_played_x"))),
   ("skipped", .boolV (pyBool (cleanV (getColD row "skipped" (.bool false))))),
   ("reason_start", ov (cleanV (getCol row "reason_start"))),
   ("reason_end", ov (cleanV (getCol row "reason_end"))),
   ("shuffle", .boolV (pyBool (cleanV (getColD row "shuffle" (.bool false))))),
   ("offline", .boolV (pyBool (cleanV (getColD row "offline" (.bool false))))),
   ("completion_rate", oq cr)]

/-- The `audio_features` group of the document, before cleanup. -/
def mkAudioDict (row : Row) : List (String × PyLeaf) :=
  [("danceability", ov (cleanV (getCol row "Danceability"))),
   ("energy", ov (cleanV (getCol row "Energy"))),
   ("key", ov (cleanV (getCol row "Key"))),
   ("loudness", ov (cleanV (getCol row "Loudness"))),
   ("mode", ov (cleanV (getCol row "Mode"))),
   ("speechiness", ov (cleanV (getCol row "Speechiness"))),
   ("acousticness", ov (cleanV (getCol row "Acousticness"))),
   ("instrumentalness", ov (cleanV (getCol row "Instrumentalness"))),
   ("liveness", ov (cleanV (getCol row "Liveness"))),
   ("valence", ov (cleanV (getCol row "Valence"))),
   ("tempo", ov (cleanV (getCol row "Tempo"))),
   ("time_signature", ov (cleanV (getCol row "Time Signature")))]

/-- The `metadata` group of the document, before cleanup. -/
def mkMetadataDict (td : Value → Option ℚ) (row : Row) : List (String × PyLeaf) :=
  [("explicit", .boolV (pyBool (cleanV (getColD row "Explicit_releases" (.bool false))))),
   ("added_by", ov (cleanV (getCol row "Added By_releases"))),
   ("added_at", oq (parse_timestamp td (getCol row "Added At_releases"))),
   ("copyrights", ov (cleanV (getCol row "Copyrights")))]

/-- The seven nested groups subjected to the trailing cleanup loop
(`migration` is deliberately not among them, as in the source). -/
def groupKeys : List String :=
  ["user", "track", "album", "artist", "listening", "audio_features", "metadata"]

/-- Cleanup of one top-level entry: inside a group, `None`-valued fields are
dropped; a group left empty is removed from the document. -/
def cleanEntry (kv : String × PyVal) : Option (String × PyVal) :=
  if kv.1 ∈ groupKeys then
    match kv.2 with
    | .dict g =>
        let g' := g.filter (fun e => decide (e.2 ≠ PyLeaf.null))
        if g' = [] then none else some (kv.1, .dict g')
    | v => some (kv.1, v)
  else some kv

/-- The trailing cleanup loop of `transform_record`. -/
def cleanupDoc (entries : List (String × PyVal)) : Doc :=
  entries.filterMap cleanEntry

/-- `transform_record`: one raw row to one document.  `td` is the external
pandas timestamp parser, `now` the `datetime.now(timezone.utc)` instant of
this call.  The only uncaught exception path is a `TypeError` out of the
completion-rate block (provably unreachable, theorem `claim_C9`). -/
def transform_record (td : Value → Option ℚ) (now : ℚ) (row : Row) :
    Except PyErr Doc := do
  let cr ← completionRate (ov (cleanV (getCol row "ms_played_x")))
    (ov (cleanV (getCol row "Track Duration (ms)_releases")))
  .ok (cleanupDoc
    [("_id", .leaf (.str (recordId row))),
     ("spotify_track_uri", .leaf (ov (cleanV (getCol row "spotify_track_uri")))),
     ("timestamp", .leaf (oq (parse_timestamp td (getCol row "ts_x")))),
     ("user", .dict (mkUserDict row)),
     ("track", .dict (mkTrackDict row)),
     ("album", .dict (mkAlbumDict row)),
     ("artist", .dict (mkArtistDict row)),
     ("listening", .dict (mkListeningDict row cr)),
     ("audio_features", .dict (mkAudioDict row)),
     ("metadata", .dict (mkMetadataDict td row)),
     ("migration", .dict
        [("created_at", .rat now), ("source", .str "csv_import"), ("version", .str "1.0")])])

/-- Convenience total form of the transform at a fixed environment
(`pd.to_datetime` failing everywhere, run instant 0), used in concrete
evaluations; `claim_C9` shows the error branch is dead. -/
def transform0 (row : Row) : Doc :=
  ((transform_record (fun _ => none) 0 row).toOption).getD []

/-! ## The document store and its bulk writes

The MongoDB collection is a keyed collection with a unique `_id` index,
embedded as a partial map from key to stored document.  Documents keep
their ordered-dictionary representation. -/

/-- The document store: `_id` to stored document. -/
abbrev Store := String → Option Doc

/-- The empty collection. -/
def emptyStore : Store := fun _ => none

/-- The `_id` of a document (always a string leaf by construction). -/
def docKey (d : Doc) : String :=
  match d.lookup "_id" with
  | some (.leaf (.str s)) => s
  | _ => ""

/-- Setting one top-level field of a stored document, as MongoDB `$set`
does: replace the value if the key is present (every duplicate, should one
exist), append the entry otherwise. -/
def dictSet (d : Doc) (k : String) (v : PyVal) : Doc :=
  if (d.lookup k).isSome then
    d.map (fun kv => if kv.1 = k then (k, v) else kv)
  else d ++ [(k, v)]

/-- `$set` of a whole update document onto a stored one: each top-level
entry of `new` is set in order; fields of `old` absent from `new` survive. -/
def applySet (old new : Doc) : Doc :=
  new.foldl (fun acc kv => dictSet acc kv.1 kv.2) old

/-- Outcome of one `UpdateOne(filter, {$set: doc}, upsert=True)`, as the
pymongo bulk result reports it. -/
inductive UpsertKind where
  | upsertedNew
  | modifiedOld
  | matchedNoop
deriving DecidableEq

/-- One upsert against the store: insert the document when its key is free
(counted in `upserted_count`), else `$set`-merge it onto the stored one
(counted in `modified_count` only when the stored document changes). -/
def upsertStep (s : Store) (d : Doc) : Store × UpsertKind :=
  let k := docKey d
  match s k with
  | some old =>
      let m := applySet old d
      (fun k' => if k' = k then some m else s k',
       if m = old then .matchedNoop else .modifiedOld)
  | none => (fun k' => if k' = k then some d else s k', .upsertedNew)

/-- The store after one upsert. -/
def upsertDoc (s : Store) (d : Doc) : Store :=
  (upsertStep s d).1

/-- An ordered upsert batch (within one batch pymongo preserves the
operation order). -/
def applyUpsert (s : Store) (b : List Doc) : Store :=
  b.foldl upsertDoc s

/-- One step of the upsert-batch fold, accumulating the pymongo counters. -/
def upStepFun (acc : Store × ℕ × ℕ × ℕ) (d : Doc) : Store × ℕ × ℕ × ℕ :=
  match upsertStep acc.1 d with
  | (st', .upsertedNew) => (st', acc.2.1 + 1, acc.2.2.1, acc.2.2.2)
  | (st', .modifiedOld) => (st', acc.2.1, acc.2.2.1 + 1, acc.2.2.2)
  | (st', .matchedNoop) => (st', acc.2.1, acc.2.2.1, acc.2.2.2 + 1)

/-- Accumulated pymongo counters of an upsert batch:
store, `upserted_count`, `modified_count`, and the matched-but-unmodified
operations (`matched_count - modified_count`; the source ignores it). -/
def runUpsertBatch (s : Store) (b : List Doc) : Store × ℕ × ℕ × ℕ :=
  b.foldl upStepFun (s, 0, 0, 0)

/-- One `InsertOne` with `ordered=False` semantics: a duplicate key is a
per-operation error (the whole bulk call then raises `BulkWriteError`
after attempting every operation); a fresh key is stored. -/
def insertStep (s : Store) (d : Doc) : Store × Bool :=
  let k := docKey d
  match s k with
  | some _ => (s, true)
  | none => (fun k' => if k' = k then some d else s k', false)

/-- One step of the insert-batch fold. -/
def insStepFun (acc : Store × ℕ × Bool) (d : Doc) : Store × ℕ × Bool :=
  match insertStep acc.1 d with
  | (st', e) => (st', if e then acc.2.1 else acc.2.1 + 1, acc.2.2 || e)

/-- An unordered insert batch: store, `inserted_count`, and whether the
bulk call raises. -/
def runInsertBatch (s : Store) (b : List Doc) : Store × ℕ × Bool :=
  b.foldl insStepFun (s, 0, false)

/-! ## `migrate_csv_data` and its statistics -/

/-- The statistics dictionary of `migrate_csv_data`. -/
structure MigStats where
  totalRecords : ℕ
  processed : ℕ
  inserted : ℕ
  updated : ℕ
  failed : ℕ
deriving DecidableEq

/-- State threaded through the run: the collection, the statistics, and the
model-level tally of matched-but-unmodified upserts (invisible to the
source's counters). -/
structure RunState where
  store : Store
  stats : MigStats
  noops : ℕ

/-- `_execute_batch`: on a backend failure (injected via `fail`, covering a
raised bulk error outside the duplicate-key path) the whole batch is
counted failed; in update mode the pymongo `upserted_count`/`modified_count`
are added; in insert mode a duplicate key raises `BulkWriteError`, the
`except` then counts the whole batch failed. -/
def execBatch (updateMode fail : Bool) (st : RunState) (ops : List Doc) : RunState :=
  if fail then
    { st with stats := { st.stats with failed := st.stats.failed + ops.length } }
  else if updateMode then
    { store := (runUpsertBatch st.store ops).1,
      stats := { st.stats with
                  inserted := st.stats.inserted + (runUpsertBatch st.store ops).2.1,
                  updated := st.stats.updated + (runUpsertBatch st.store ops).2.2.1 },
      noops := st.noops + (runUpsertBatch st.store ops).2.2.2 }
  else if (runInsertBatch st.store ops).2.2 then
    { st with store := (runInsertBatch st.store ops).1,
              stats := { st.stats with failed := st.stats.failed + ops.length } }
  else
    { st with store := (runInsertBatch st.store ops).1,
              stats := { st.stats with
                  inserted := st.stats.inserted + (runInsertBatch st.store ops).2.1 } }

/-- The row loop of `migrate_csv_data`: transform each row (a raised
transform error is caught and counted failed without counting the row
processed), accumulate operations, flush every `batchSize`, flush the
remainder.  `nowAt` gives the wall-clock instant of each row's transform,
`failAt` injects backend errors per flushed batch. -/
def migrateLoop (td : Value → Option ℚ) (nowAt : ℕ → ℚ) (updateMode : Bool)
    (batchSize : ℕ) (failAt : ℕ → Bool) :
    List Row → ℕ → ℕ → List Doc → RunState → RunState
  | [], _, flushIdx, pending, st =>
      if pending.length > 0 then execBatch updateMode (failAt flushIdx) st pending else st
  | row :: rest, idx, flushIdx, pending, st =>
      match transform_record td (nowAt idx) row with
      | .error _ =>
          migrateLoop td nowAt updateMode batchSize failAt rest (idx + 1) flushIdx pending
            { st with stats := { st.stats with failed := st.stats.failed + 1 } }
      | .ok doc =>
          if batchSize ≤ (pending ++ [doc]).length then
            migrateLoop td nowAt updateMode batchSize failAt rest (idx + 1) (flushIdx + 1) []
              (execBatch updateMode (failAt flushIdx)
                { st with stats :=
                    { st.stats with processed := st.stats.processed + 1 } }
                (pending ++ [doc]))
          else
            migrateLoop td nowAt updateMode batchSize failAt rest (idx + 1) flushIdx
              (pending ++ [doc])
              { st with stats := { st.stats with processed := st.stats.processed + 1 } }

/-- `migrate_csv_data` over an in-memory table. -/
def migrate_csv_data (td : Value → Option ℚ) (nowAt : ℕ → ℚ) (updateMode : Bool)
    (batchSize : ℕ) (failAt : ℕ → Bool) (rows : List Row) : RunState :=
  migrateLoop td nowAt updateMode batchSize failAt rows 0 0 []
    { store := emptyStore,
      stats := { totalRecords := rows.length, processed := 0, inserted := 0,
                 updated := 0, failed := 0 },
      noops := 0 }

/-! ## The relational backend: entity extraction and dimension inserts

`extract_unique_entities` projects the selected columns of each row,
drops duplicate column tuples (`drop_duplicates`) and rows whose natural
key is `NaN` (`dropna(subset=[...])`).  The later per-column rewrites
(uuid minting, genre splitting, uri stripping) neither add nor remove
rows, so the embedding carries the projected tuples to the insert step
and applies the conflict key function there.  `List.dedup` keeps the last
duplicate where pandas keeps the first; the kept representative affects no
claim (row counts and key sets agree). -/

/-- The `users` column tuple (`user_cols`). -/
structure UserEnt where
  username : Value
  country : Value
deriving DecidableEq

/-- The `artists` column tuple (`artist_cols`). -/
structure ArtistEnt where
  name : Value
  uri : Value
  genres : Value
deriving DecidableEq

/-- The `albums` column tuple (`album_cols`). -/
structure AlbumEnt where
  name : Value
  uri : Value
  releaseDate : Value
  genres : Value
  label : Value
deriving DecidableEq

/-- The `tracks` column tuple (`track_cols`). -/
structure TrackEnt where
  uri : Value
  name : Value
  durationMs : Value
  trackNumber : Value
  discNumber : Value
  explicit : Value
  popularity : Value
  previewUrl : Value
  isrc : Value
deriving DecidableEq

/-- Column projection for the `users` extraction. -/
def userProj (r : Row) : UserEnt :=
  { username := getCol r "username", country := getCol r "conn_country" }

/-- Column projection for the `artists` extraction. -/
def artistProj (r : Row) : ArtistEnt :=
  { name := getCol r "master_metadata_album_artist_name_x",
    uri := getCol r "Artist URI(s)_releases",
    genres := getCol r "Artist Genres" }

/-- Column projection for the `albums` extraction. -/
def albumProj (r : Row) : AlbumEnt :=
  { name := getCol r "master_metadata_album_album_name_x",
    uri := getCol r "Album URI_releases",
    releaseDate := getCol r "Album Release Date_releases",
    genres := getCol r "Album Genres",
    label := getCol r "Label" }

/-- Column projection for the `tracks` extraction. -/
def trackProj (r : Row) : TrackEnt :=
  { uri := getCol r "spotify_track_uri",
    name := getCol r "master_metadata_track_name_x",
    durationMs := getCol r "Track Duration (ms)_releases",
    trackNumber := getCol r "Track Number_releases",
    discNumber := getCol r "Disc Number_releases",
    explicit := getCol r "Explicit_releases",
    popularity := getCol r "Popularity_releases",
    previewUrl := getCol r "Track Preview URL_releases",
    isrc := getCol r "ISRC_releases" }

/-- `df[cols].drop_duplicates().dropna(subset=[key])` for one entity type:
distinct projected tuples whose natural-key component is not `NaN`. -/
def extractEntities {α : Type} [DecidableEq α] (proj : Row → α) (key : α → Value)
    (rows : List Row) : List α :=
  ((rows.map proj).dedup).filter (fun t => decide (key t ≠ Value.null))

/-- The extracted dimension tables of `extract_unique_entities`. -/
def extractUsers (rows : List Row) : List UserEnt :=
  extractEntities userProj UserEnt.username rows

def extractArtists (rows : List Row) : List ArtistEnt :=
  extractEntities artistProj ArtistEnt.name rows

def extractAlbums (rows : List Row) : List AlbumEnt :=
  extractEntities albumProj AlbumEnt.name rows

def extractTracks (rows : List Row) : List TrackEnt :=
  extractEntities trackProj TrackEnt.uri rows

/-- The per-type distinct-entity counts reported by the migration
(`len(entities[...])`). -/
def entityCounts (rows : List Row) : ℕ × ℕ × ℕ × ℕ :=
  ((extractUsers rows).length, (extractArtists rows).length,
   (extractAlbums rows).length, (extractTracks rows).length)

/-- The row-level effect of `ON CONFLICT (key) DO NOTHING` when a unique
index backs the conflict target: the row is stored only when no stored row
has its conflict key. -/
def insertIgnore {α κ : Type} [DecidableEq κ] (key : α → κ) (t : List α) (x : α) :
    List α :=
  if t.any (fun y => decide (key y = key x)) then t else t ++ [x]

/-- A conflict-ignoring batch insert over an entity list. -/
def insertAllIgnore {α κ : Type} [DecidableEq κ] (key : α → κ) (xs : List α) :
    List α :=
  xs.foldl (insertIgnore key) []

/-- Drop an exact leading occurrence of `pat` from `s`, if present. -/
def dropPat : List Char → List Char → Option (List Char)
  | [], s => some s
  | _ :: _, [] => none
  | p :: ps, c :: cs => if p = c then dropPat ps cs else none

/-- Left-to-right removal of every non-overlapping occurrence of `pat`
(the effect of Python `str.replace(pat, '')` for a non-empty `pat`); the
fuel argument only bounds the recursion and is instantiated with the
string length, which a non-empty pattern never exhausts. -/
def replFuel (pat : List Char) : ℕ → List Char → List Char
  | 0, s => s
  | _, [] => []
  | fuel + 1, c :: cs =>
      match dropPat pat (c :: cs) with
      | some rest => replFuel pat fuel rest
      | none => c :: replFuel pat fuel cs

/-- Python `s.replace(pat, '')` (the source only uses non-empty patterns). -/
def pyReplace (s pat : String) : String :=
  ⟨replFuel pat.data s.data.length s.data⟩

/-- The `tracks` conflict key: the uri with every occurrence of
`spotify:track:` removed (`.str.replace('spotify:track:', '')`); after
`dropna` the uri column holds non-`NaN` scalars, and a non-string scalar is
carried through unchanged (the pandas `.str` accessor would not apply). -/
def trackKeyOf (v : Value) : Value :=
  match v with
  | .str s => .str (pyReplace s "spotify:track:")
  | w => w

/-- The PostgreSQL errors the phase-1 inserts can raise under the schema
`create_schema` creates: 42P10 (the `ON CONFLICT` target names a column
with no unique or exclusion constraint) and 23502 (null in a `NOT NULL`
column). -/
inductive SqlErr where
  | invalidConflictTarget
  | notNullViolation
deriving DecidableEq

/-- One row of `INSERT ... ON CONFLICT (c) DO NOTHING` under the created
schema.  `arbiter` says whether a unique or exclusion constraint matches
the conflict target: when none does, PostgreSQL rejects the statement
itself (42P10) before looking at the values.  A null in a `NOT NULL`
column raises 23502 (the tuple is checked before conflict resolution).
Otherwise the row is stored unless a stored row already carries its
conflict-key value. -/
def pgInsertRow {α κ : Type} [DecidableEq κ] (arbiter : Bool) (nullViol : α → Bool)
    (key : α → κ) (t : List α) (x : α) : Except SqlErr (List α) :=
  if arbiter = false then .error .invalidConflictTarget
  else if nullViol x then .error .notNullViolation
  else .ok (insertIgnore key t x)

/-- `execute_batch` of one insert statement: the rows execute in order and
the first error aborts the batch (`insert_entities` has no handler). -/
def pgInsertList {α κ : Type} [DecidableEq κ] (arbiter : Bool) (nullViol : α → Bool)
    (key : α → κ) : List α → List α → Except SqlErr (List α)
  | t, [] => .ok t
  | t, x :: xs =>
      match pgInsertRow arbiter nullViol key t x with
      | .error e => .error e
      | .ok t2 => pgInsertList arbiter nullViol key t2 xs

/-- One batched insert starting from an empty table; an empty batch is
guarded by `if <data>:` in the source and executes no statement at all. -/
def pgInsertAll {α κ : Type} [DecidableEq κ] (arbiter : Bool) (nullViol : α → Bool)
    (key : α → κ) (xs : List α) : Except SqlErr (List α) :=
  pgInsertList arbiter nullViol key [] xs

/-- `users.username` is `NOT NULL` (the other inserted columns are
nullable). -/
def userNullViol (u : UserEnt) : Bool := decide (u.username = Value.null)

/-- `artists.name` is `NOT NULL`. -/
def artistNullViol (a : ArtistEnt) : Bool := decide (a.name = Value.null)

/-- `albums.name` is `NOT NULL`. -/
def albumNullViol (a : AlbumEnt) : Bool := decide (a.name = Value.null)

/-- `tracks.spotify_track_id` and `tracks.name` are `NOT NULL`. -/
def trackNullViol (t : TrackEnt) : Bool :=
  decide (trackKeyOf t.uri = Value.null) || decide (t.name = Value.null)

/-- Sequencing of the batched statements: an error short-circuits (there
is no try/except in `insert_entities`). -/
def sqlSeq {β γ : Type} (r : Except SqlErr β) (f : β → Except SqlErr γ) :
    Except SqlErr γ :=
  match r with
  | .error e => .error e
  | .ok b => f b

/-- `insert_entities`: the four batched inserts in source order (users,
artists, albums, tracks).  `users(username)` and `tracks(spotify_track_id)`
are `UNIQUE` columns, so those conflict targets have an arbiter; but
`artists.name` and `albums.name` carry only the plain indexes
`idx_artists_name` / `idx_albums_name`, so `ON CONFLICT (name)` has none
and the statement itself is rejected whenever its batch is non-empty.
The single `conn.commit()` follows the last insert, so the first error
propagates (through `run_migration`, which only has a `finally`) with
nothing committed. -/
def insert_entities (rows : List Row) :
    Except SqlErr (List UserEnt × List ArtistEnt × List AlbumEnt × List TrackEnt) :=
  sqlSeq (pgInsertAll true userNullViol UserEnt.username (extractUsers rows)) fun us =>
  sqlSeq (pgInsertAll false artistNullViol ArtistEnt.name (extractArtists rows)) fun ar =>
  sqlSeq (pgInsertAll false albumNullViol AlbumEnt.name (extractAlbums rows)) fun al =>
  sqlSeq (pgInsertAll true trackNullViol (fun t => trackKeyOf t.uri) (extractTracks rows))
    fun tk => .ok (us, ar, al, tk)

/-! ## The relational backend, phase 2: `insert_listening_history` -/

/-- A fact row as appended to `batch_data` (surrogate ids, parsed
timestamp, raw play statistics and context columns). -/
structure FactRow where
  userId : String
  trackId : String
  playedAt : ℚ
  msPlayed : Value
  completion : Option ℚ
  skipped : Value
  shuffle : Value
  offline : Value
  reasonStart : Value
  reasonEnd : Value
  platform : Value
  ipAddress : Value
  userAgent : Value
deriving DecidableEq

/-- What `insert_listening_history` does with one row. -/
inductive LhStep where
  | push (fr : FactRow)
  | skipFk
  | skipTs
  | err (e : PyErr)
deriving DecidableEq

/-- Python `not x` on a surrogate id drawn from a mapping (`None` when the
key is unmapped, and an empty string would also be falsy). -/
def falsyId : Option String → Bool
  | none => true
  | some s => decide (s = "")

/-- `row.get('spotify_track_uri', '').replace('spotify:track:', '')`:
an `AttributeError` on a non-string cell (a `NaN` float has no
`.replace`), caught by the surrounding `except`. -/
def pyReplaceAll (v : Value) (pat : String) : Except PyErr String :=
  match v with
  | .str s => .ok (pyReplace s pat)
  | _ => .error .attributeError

/-- `pd.to_datetime(x, errors='coerce')` followed by the `pd.isna` guard:
`none` is `NaT` (unparsable or missing input). -/
def coerceTs (td : Value → Option ℚ) (v : Value) : Option ℚ :=
  match v with
  | .null => none
  | w => td w

/-- `duration_ms > 0` on the raw cell: comparing a string against an int
raises `TypeError` (caught by the surrounding `except`). -/
def pyGtZero (v : Value) : Except PyErr Bool :=
  match v with
  | .num q => .ok (decide (0 < q))
  | .bool b => .ok b
  | .str _ => .error .typeError
  | .null => .error .typeError

/-- Python `float()` on a raw cell. -/
def pyFloatV (v : Value) : Except PyErr ℚ :=
  match v with
  | .null => .error .typeError
  | .num q => .ok q
  | .bool b => .ok (if b then 1 else 0)
  | .str s =>
      match strToRat? s with
      | some q => .ok q
      | none => .error .valueError

/-- The completion-rate block of `insert_listening_history`:
`pd.notna` guards on both cells, `duration_ms > 0`, then
`min(float(ms)/float(dur), 1.0)`; exceptions escape to the row's
`except` handler. -/
def lhCompletion (msv durv : Value) : Except PyErr (Option ℚ) :=
  if msv = Value.null ∨ durv = Value.null then .ok none
  else do
    let gt ← pyGtZero durv
    if gt then
      let m ← pyFloatV msv
      let du ← pyFloatV durv
      if du = 0 then .error .zeroDivisionError else .ok (some (min (m / du) 1))
    else .ok none

/-- One row of `insert_listening_history`: resolve the user and track
surrogate ids, silently `continue` when either is unresolvable or the
timestamp coerces to `NaT`, build the fact row otherwise; any exception in
the body is caught, logged and the row dropped. -/
def lh_step (td : Value → Option ℚ) (users : List (Value × String))
    (tracks : List (String × String)) (row : Row) : LhStep :=
  let uid := users.lookup (getCol row "username")
  match pyReplaceAll (getColD row "spotify_track_uri" (.str "")) "spotify:track:" with
  | .error e => .err e
  | .ok tkey =>
    let tid := tracks.lookup tkey
    if falsyId uid || falsyId tid then .skipFk
    else
      match coerceTs td (getCol row "ts_x") with
      | none => .skipTs
      | some t =>
          match lhCompletion (getCol row "ms_played_x")
              (getCol row "Track Duration (ms)_releases") with
          | .error e => .err e
          | .ok cr =>
              .push { userId := uid.getD "", trackId := tid.getD "",
                      playedAt := t,
                      msPlayed := getCol row "ms_played_x",
                      completion := cr,
                      skipped := getColD row "skipped" (.bool false),
                      shuffle := getColD row "shuffle" (.bool false),
                      offline := getColD row "offline" (.bool false),
                      reasonStart := getCol row "reason_start",
                      reasonEnd := getCol row "reason_end",
                      platform := getCol row "platform",
                      ipAddress := getCol row "ip_addr_decrypted",
                      userAgent := getCol row "user_agent_decrypted" }

/-- The whole phase-2 run: the batched fact rows in order and the returned
`inserted_count` (every flushed batch adds its length; batching changes
no totals).  These two are the phase's entire observable output — no
failure statistic exists in the source. -/
def lh_run (td : Value → Option ℚ) (users : List (Value × String))
    (tracks : List (String × String)) (rows : List Row) : ℕ × List FactRow :=
  rows.foldl
    (fun acc row =>
      match lh_step td users tracks row with
      | .push fr => (acc.1 + 1, acc.2 ++ [fr])
      | _ => acc)
    (0, [])

/-- The completion-rate computation of `insert_listening_history` on
numeric inputs (the path the spec describes). -/
def supaCompletionRate (m du : ℚ) : Option ℚ :=
  if 0 < du then some (min (m / du) 1) else none

/-! ## Derived observation functions -/

/-- The last value an ordered dict assigns to a field (later entries win,
matching the effect of setting its entries in order). -/
def lastAssoc {β : Type} : List (String × β) → String → Option β
  | [], _ => none
  | e :: rest, f =>
      match lastAssoc rest f with
      | some v => some v
      | none => if e.1 = f then some e.2 else none

/-- The value assigned to field `f` by the last document of a batch that
carries `f` at all (later documents and later entries win). -/
def lastProvided : List Doc → String → Option PyVal
  | [], _ => none
  | d :: rest, f =>
      match lastProvided rest f with
      | some v => some v
      | none => lastAssoc d f

/-- The last document of a batch carrying a given record key. -/
def lastDocWith : List Doc → String → Option Doc
  | [], _ => none
  | d :: rest, k =>
      match lastDocWith rest k with
      | some d' => some d'
      | none => if docKey d = k then some d else none

/-- Chained `$set` merges of a document list onto a base document. -/
def chainSet (m : Doc) (ds : List Doc) : Doc :=
  ds.foldl applySet m

/-- Per-key effect of an upsert batch: the first document with the key is
inserted as is, later ones are `$set`-merged onto it. -/
def upChain (o : Option Doc) (ds : List Doc) : Option Doc :=
  ds.foldl
    (fun acc d =>
      match acc with
      | none => some d
      | some m => some (applySet m d))
    o

/-- The completion rate a stored document carries, if any. -/
def docCR (d : Doc) : Option PyLeaf :=
  match d.lookup "listening" with
  | some (.dict g) => g.lookup "completion_rate"
  | _ => none

/-- Classifiers for the phase-2 per-row outcome. -/
def LhStep.isPush : LhStep → Bool
  | .push _ => true
  | _ => false

def LhStep.isFk : LhStep → Bool
  | .skipFk => true
  | _ => false

def LhStep.isTs : LhStep → Bool
  | .skipTs => true
  | _ => false

def LhStep.isErr : LhStep → Bool
  | .err _ => true
  | _ => false

/-- A trivial always-parsing timestamp environment for concrete runs. -/
def tdDemo : Value → Option ℚ := fun _ => some 1

/-! ## Concrete inputs used in witnesses and counterexamples -/

/-- Two listening rows differing in every entity column. -/
def permRow1 : Row :=
  [("username", .str "alice"), ("conn_country", .str "US"),
   ("master_metadata_album_artist_name_x", .str "Daft Punk"),
   ("master_metadata_album_album_name_x", .str "Discovery"),
   ("spotify_track_uri", .str "spotify:track:t1")]

def permRow2 : Row :=
  [("username", .str "bob"), ("conn_country", .str "DE"),
   ("master_metadata_album_artist_name_x", .str "Moderat"),
   ("master_metadata_album_album_name_x", .str "II"),
   ("spotify_track_uri", .str "spotify:track:t2")]

/-- The spec's natural-key-collapse scenario: two rows with artist name
`"Daft Punk"` and one with `"daft punk"`. -/
def daftRows : List Row :=
  [[("master_metadata_album_artist_name_x", .str "Daft Punk")],
   [("master_metadata_album_artist_name_x", .str "Daft Punk")],
   [("master_metadata_album_artist_name_x", .str "daft punk")]]

/-- A row carrying a track uri but no track name (and no artist, album or
username columns): it survives the tracks extraction (`dropna` keys on the
uri alone) with a null `name`. -/
def trackNoNameRow : Row :=
  [("spotify_track_uri", .str "spotify:track:t1")]

/-- Rows whose key triples differ but whose rendered record keys collide
(the `_` delimiter also occurs inside the components). -/
def collideRowA : Row :=
  [("spotify_track_uri", .str "a_b"), ("username", .str "c"), ("ts_x", .str "t")]

def collideRowB : Row :=
  [("spotify_track_uri", .str "a"), ("username", .str "b_c"), ("ts_x", .str "t")]

/-- A row with a negative `ms_played_x` and a positive duration: both
inputs are present (truthy) yet the stored completion rate is `-1/2`. -/
def negRow : Row :=
  [("spotify_track_uri", .str "u"), ("ms_played_x", .num (-1)),
   ("Track Duration (ms)_releases", .num 2)]

/-- A fully-played row (rate exactly 1/2 before capping). -/
def posRow : Row :=
  [("spotify_track_uri", .str "u"), ("ms_played_x", .num 90000),
   ("Track Duration (ms)_releases", .num 180000)]

/-- A plain row; two copies of it transform to identical documents. -/
def dupRow : Row :=
  [("spotify_track_uri", .str "u"), ("username", .str "a"), ("ts_x", .str "t")]

/-- Same record key as `mergeRow2`, but carries an audio feature the
second row lacks. -/
def mergeRow1 : Row :=
  [("spotify_track_uri", .str "u"), ("username", .str "a"), ("ts_x", .str "t"),
   ("Danceability", .num (1/2))]

def mergeRow2 : Row :=
  [("spotify_track_uri", .str "u"), ("username", .str "a"), ("ts_x", .str "t")]

/-- The empty raw row: every column missing, hence every value blank. -/
def blankRow : Row := []

/-- A row whose uri, skipped flag and album-genre cells are blank (empty
string, `NaN`, empty string respectively). -/
def blankValsRow : Row :=
  [("spotify_track_uri", Value.str ""), ("skipped", Value.null),
   ("Album Genres", Value.str "")]

/-- A tiny identifier mapping for the phase-2 writer. -/
def umapDemo : List (Value × String) := [(Value.str "alice", "uid1")]

def tmapDemo : List (String × String) := [("t1", "tid1")]

/-- A row whose username is not in the user mapping: its user foreign key
is unresolvable. -/
def fkRow : Row :=
  [("username", Value.str "bob"), ("spotify_track_uri", .str "spotify:track:t9"),
   ("ts_x", .str "2023")]

/-- A fully resolvable row. -/
def okRow : Row :=
  [("username", Value.str "alice"), ("spotify_track_uri", .str "spotify:track:t1"),
   ("ts_x", .str "2023")]

/-- A one-document batch with distinct top-level keys. -/
def demoDocBatch : List Doc :=
  [[("_id", PyVal.leaf (.str "k")), ("x", PyVal.leaf (.rat 1))]]

/-! ## Lemmas: entity extraction and conflict-ignoring inserts -/

theorem extractEntities_length_perm {α : Type} [DecidableEq α] (proj : Row → α)
    (key : α → Value) {l l' : List Row} (h : l.Perm l') :
    (extractEntities proj key l).length = (extractEntities proj key l').length :=
  (((h.map proj).dedup).filter _).length_eq

theorem extractEntities_any {α : Type} [DecidableEq α] (proj : Row → α)
    (key : α → Value) (p : α → Bool) (rows : List Row) :
    (extractEntities proj key rows).any p =
      rows.any (fun r => p (proj r) && decide (key (proj r) ≠ Value.null)) := by
  rw [Bool.eq_iff_iff]
  simp only [extractEntities, List.any_eq_true, List.mem_filter, List.mem_dedup,
    List.mem_map, Bool.and_eq_true]
  constructor
  · rintro ⟨t, ⟨⟨r, hr, rfl⟩, hk⟩, hp⟩
    exact ⟨r, hr, hp, hk⟩
  · rintro ⟨r, hr, hp, hk⟩
    exact ⟨proj r, ⟨⟨r, hr, rfl⟩, hk⟩, hp⟩

theorem insertIgnore_countP {α κ : Type} [DecidableEq κ] (key : α → κ)
    (t : List α) (x : α)
    (hinv : ∀ k, t.countP (fun y => decide (key y = k)) =
      if t.any (fun y => decide (key y = k)) then 1 else 0) :
    ∀ k, (insertIgnore key t x).countP (fun y => decide (key y = k)) =
      if (insertIgnore key t x).any (fun y => decide (key y = k)) then 1 else 0 := by
  intro k
  unfold insertIgnore
  by_cases h : t.any (fun y => decide (key y = key x)) = true
  · simp only [h, if_pos, hinv k]
  · simp only [h, Bool.false_eq_true, if_neg, not_false_iff]
    rw [List.countP_append, List.any_append, hinv k]
    by_cases hk : key x = k
    · subst hk
      simp only [h, Bool.false_eq_true, if_neg, not_false_iff]
      simp [List.countP_cons]
    · have h1 : ([x].countP (fun y => decide (key y = k))) = 0 := by
        simp [List.countP_cons, hk]
      have h2 : ([x].any (fun y => decide (key y = k))) = false := by
        simp [hk]
      rw [h1, h2, Bool.or_false]
      omega

theorem insertAllIgnore_countP_aux {α κ : Type} [DecidableEq κ] (key : α → κ) :
    ∀ (xs t : List α),
      (∀ k, t.countP (fun y => decide (key y = k)) =
        if t.any (fun y => decide (key y = k)) then 1 else 0) →
      (∀ k, ∀ x ∈ xs,
        (key x = k) → (xs.foldl (insertIgnore key) t).any (fun y => decide (key y = k)) = true) ∧
      (∀ k, (t.any (fun y => decide (key y = k)) = true →
        (xs.foldl (insertIgnore key) t).any (fun y => decide (key y = k)) = true)) ∧
      ∀ k, (xs.foldl (insertIgnore key) t).countP (fun y => decide (key y = k)) =
        if t.any (fun y => decide (key y = k)) || xs.any (fun x => decide (key x = k)) then 1
        else 0 := by
  intro xs
  induction xs with
  | nil =>
      intro t hinv
      refine ⟨by simp, by simp, ?_⟩
      intro k
      simpa using hinv k
  | cons x xs ih =>
      intro t hinv
      have hinv' := insertIgnore_countP key t x hinv
      obtain ⟨hmem, hkeep, hcount⟩ := ih (insertIgnore key t x) hinv'
      have hkeepx : ∀ k, key x = k →
          ((insertIgnore key t x).any (fun y => decide (key y = k)) = true) := by
        intro k hk
        subst hk
        unfold insertIgnore
        by_cases h : t.any (fun y => decide (key y = key x)) = true
        · simp [h]
        · simp [h]
      have hlift : ∀ k, t.any (fun y => decide (key y = k)) = true →
          (insertIgnore key t x).any (fun y => decide (key y = k)) = true := by
        intro k hk
        unfold insertIgnore
        by_cases h : t.any (fun y => decide (key y = key x)) = true
        · simpa [h] using hk
        · simp [h, List.any_append, hk]
      refine ⟨?_, ?_, ?_⟩
      · intro k y hy hyk
        rcases List.mem_cons.mp hy with rfl | hy'
        · exact hkeep k (hkeepx k hyk)
        · exact hmem k y hy' hyk
      · intro k hk
        exact hkeep k (hlift k hk)
      · intro k
        rw [List.foldl_cons, hcount k]
        by_cases hx : key x = k
        · subst hx
          have h1 : (insertIgnore key t x).any (fun y => decide (key y = key x)) = true :=
            hkeepx _ rfl
          simp [h1]
        · have h2 : (insertIgnore key t x).any (fun y => decide (key y = k)) =
              t.any (fun y => decide (key y = k)) := by
            unfold insertIgnore
            by_cases h : t.any (fun y => decide (key y = key x)) = true
            · simp [h]
            · simp [h, List.any_append, hx]
          simp [h2, hx]

/-- The conflict-ignoring insert stores exactly one row per key occurring
in the batch, and none for keys that do not occur. -/
theorem insertAllIgnore_countP {α κ : Type} [DecidableEq κ] (key : α → κ)
    (xs : List α) (k : κ) :
    (insertAllIgnore key xs).countP (fun y => decide (key y = k)) =
      if xs.any (fun x => decide (key x = k)) then 1 else 0 := by
  have h := (insertAllIgnore_countP_aux key xs [] (by simp)).2.2 k
  simpa [insertAllIgnore] using h

/-- Key multiplicity of a conflict-ignoring insert over an extraction, in
terms of the raw rows: one per conflict key that survives extraction, zero
otherwise — the collapse a `DO NOTHING` insert gives when a unique index
backs its conflict target (of the phase-1 inserts, only the users and
tracks targets have one). -/
theorem tableCountP {α κ : Type} [DecidableEq α] [DecidableEq κ]
    (proj : Row → α) (ekey : α → Value) (ckey : α → κ) (rows : List Row) (k : κ) :
    (insertAllIgnore ckey (extractEntities proj ekey rows)).countP
        (fun y => decide (ckey y = k)) =
      if rows.any (fun r => decide (ckey (proj r) = k) && decide (ekey (proj r) ≠ Value.null))
      then 1 else 0 := by
  rw [insertAllIgnore_countP, extractEntities_any]

/-- Claim C1: the per-type distinct-entity counts produced by
`extract_unique_entities` are a function of the row multiset alone —
resolving the same rows again, in any order, yields the same counts of
distinct users, artists, albums and tracks. -/
theorem claim_C1 {l l' : List Row} (h : l.Perm l') : entityCounts l = entityCounts l' := by
  have h1 := extractEntities_length_perm userProj UserEnt.username h
  have h2 := extractEntities_length_perm artistProj ArtistEnt.name h
  have h3 := extractEntities_length_perm albumProj AlbumEnt.name h
  have h4 := extractEntities_length_perm trackProj TrackEnt.uri h
  simp [entityCounts, extractUsers, extractArtists, extractAlbums, extractTracks,
    h1, h2, h3, h4]

/-- Witness for C1 at a concrete two-row table and its transposition. -/
theorem claim_C1_witness :
    ([permRow1, permRow2] : List Row).Perm [permRow2, permRow1] ∧
      entityCounts [permRow1, permRow2] = entityCounts [permRow2, permRow1] :=
  ⟨List.Perm.swap permRow2 permRow1 [],
   claim_C1 (List.Perm.swap permRow2 permRow1 [])⟩

theorem sqlSeq_ok {β γ : Type} (b : β) (f : β → Except SqlErr γ) :
    sqlSeq (.ok b) f = f b := rfl

theorem extract_key_ne_null {α : Type} [DecidableEq α] (proj : Row → α)
    (key : α → Value) (rows : List Row) :
    ∀ x ∈ extractEntities proj key rows, key x ≠ Value.null := by
  intro x hx
  have h := (List.mem_filter.mp hx).2
  simpa using h

/-- A batch whose conflict target has an arbiter and whose rows violate no
`NOT NULL` column behaves as the conflict-ignoring insert. -/
theorem pgInsertList_ok {α κ : Type} [DecidableEq κ] (nullViol : α → Bool)
    (key : α → κ) :
    ∀ (xs t : List α), (∀ x ∈ xs, nullViol x = false) →
      pgInsertList true nullViol key t xs = .ok (xs.foldl (insertIgnore key) t) := by
  intro xs
  induction xs with
  | nil =>
      intro t h
      rfl
  | cons x xs ih =>
      intro t h
      have hrow : pgInsertRow true nullViol key t x = .ok (insertIgnore key t x) := by
        simp [pgInsertRow, h x (List.mem_cons_self x xs)]
      have hstep : pgInsertList true nullViol key t (x :: xs) =
          pgInsertList true nullViol key (insertIgnore key t x) xs := by
        show (match pgInsertRow true nullViol key t x with
          | .error e => (Except.error e : Except SqlErr (List α))
          | .ok t2 => pgInsertList true nullViol key t2 xs) =
          pgInsertList true nullViol key (insertIgnore key t x) xs
        rw [hrow]
      rw [hstep, List.foldl_cons]
      exact ih (insertIgnore key t x) (fun y hy => h y (List.mem_cons_of_mem x hy))

/-- A statement whose conflict target has no arbiter errors on its first
row, whatever the values. -/
theorem pgInsertList_noArbiter {α κ : Type} [DecidableEq κ] (nullViol : α → Bool)
    (key : α → κ) (t : List α) (x : α) (xs : List α) :
    pgInsertList false nullViol key t (x :: xs) =
      .error SqlErr.invalidConflictTarget := rfl

/-- The users batch always succeeds: its conflict target `username` is
`UNIQUE` and `dropna` keeps only non-null usernames. -/
theorem insert_users_ok (rows : List Row) :
    pgInsertAll true userNullViol UserEnt.username (extractUsers rows) =
      .ok (insertAllIgnore UserEnt.username (extractUsers rows)) := by
  rw [pgInsertAll, insertAllIgnore]
  refine pgInsertList_ok userNullViol UserEnt.username (extractUsers rows) [] ?_
  intro u hu
  have h := extract_key_ne_null userProj UserEnt.username rows u hu
  simp [userNullViol, h]

/-- Any input that extracts at least one artist entity aborts
`insert_entities` with 42P10 at the artists statement. -/
theorem insert_entities_artists_abort (rows : List Row)
    (h : extractArtists rows ≠ []) :
    insert_entities rows = .error SqlErr.invalidConflictTarget := by
  cases hx : extractArtists rows with
  | nil => exact absurd hx h
  | cons a rest =>
      unfold insert_entities
      rw [insert_users_ok rows]
      simp only [sqlSeq_ok]
      rw [hx, show pgInsertAll false artistNullViol ArtistEnt.name (a :: rest) =
        Except.error SqlErr.invalidConflictTarget from
        pgInsertList_noArbiter artistNullViol ArtistEnt.name [] a rest]
      rfl

/-- Claim C2 (code bug): phase-1 resolution never performs the claimed
natural-key collapse for artists or albums — the created schema backs
`artists.name` and `albums.name` with no unique or exclusion constraint
(only the plain indexes `idx_artists_name` / `idx_albums_name`), so the
`ON CONFLICT (name) DO NOTHING` insert raises PostgreSQL 42P10 on any
input with at least one extracted artist entity; `insert_entities` has no
handler and its single commit is never reached, so the run aborts.  On
the Daft Punk scenario two artist entities are extracted and the run then
errors instead of storing them.  A row carrying a track uri but no track
name aborts the same way on `tracks.name NOT NULL`. -/
theorem claim_C2 :
    (∀ rows : List Row, extractArtists rows ≠ [] →
      insert_entities rows = .error SqlErr.invalidConflictTarget) ∧
    (extractArtists daftRows).length = 2 ∧
    insert_entities [trackNoNameRow] = .error SqlErr.notNullViolation :=
  ⟨insert_entities_artists_abort, rfl, rfl⟩

/-! ## Lemmas: ordered dictionaries and `$set` merges -/

theorem lookup_cons_self {β : Type} (k : String) (v : β) (t : List (String × β)) :
    List.lookup k ((k, v) :: t) = some v := by
  simp [List.lookup]

theorem lookup_cons_ne {β : Type} {k a : String} (v : β) (t : List (String × β))
    (h : k ≠ a) : List.lookup k ((a, v) :: t) = List.lookup k t := by
  simp [List.lookup, beq_false_of_ne h]

theorem lookup_eq_none_of_not_mem_keys {β : Type} {l : List (String × β)} {f : String}
    (h : f ∉ l.map Prod.fst) : l.lookup f = none := by
  induction l with
  | nil => rfl
  | cons a t ih =>
      obtain ⟨a1, a2⟩ := a
      simp only [List.map_cons, List.mem_cons] at h
      push_neg at h
      rw [lookup_cons_ne _ _ h.1]
      exact ih h.2

theorem lookup_append {β : Type} (l₁ l₂ : List (String × β)) (k : String) :
    (l₁ ++ l₂).lookup k =
      match l₁.lookup k with
      | some v => some v
      | none => l₂.lookup k := by
  induction l₁ with
  | nil => rfl
  | cons a t ih =>
      obtain ⟨a1, a2⟩ := a
      by_cases hk : k = a1
      · subst hk
        rw [List.cons_append, lookup_cons_self, lookup_cons_self]
      · rw [List.cons_append, lookup_cons_ne _ _ hk, lookup_cons_ne _ _ hk, ih]

theorem lookup_map_replace_self (d : Doc) (k : String) (v : PyVal)
    (h : (d.lookup k).isSome) :
    (d.map (fun kv => if kv.1 = k then (k, v) else kv)).lookup k = some v := by
  induction d with
  | nil => simp [List.lookup] at h
  | cons a t ih =>
      obtain ⟨a1, a2⟩ := a
      by_cases hk : k = a1
      · subst hk
        simp only [List.map_cons, if_true]
        rw [lookup_cons_self]
      · simp only [List.map_cons]
        rw [if_neg (fun hh => hk hh.symm), lookup_cons_ne _ _ hk]
        apply ih
        rwa [lookup_cons_ne _ _ hk] at h

theorem lookup_map_replace_ne (d : Doc) {k k' : String} (v : PyVal) (h : k' ≠ k) :
    (d.map (fun kv => if kv.1 = k then (k, v) else kv)).lookup k' = d.lookup k' := by
  induction d with
  | nil => rfl
  | cons a t ih =>
      obtain ⟨a1, a2⟩ := a
      simp only [List.map_cons]
      by_cases hk : a1 = k
      · subst hk
        simp only [if_true]
        rw [lookup_cons_ne _ _ h, lookup_cons_ne _ _ h, ih]
      · rw [if_neg hk]
        by_cases hk' : k' = a1
        · subst hk'
          rw [lookup_cons_self, lookup_cons_self]
        · rw [lookup_cons_ne _ _ hk', lookup_cons_ne _ _ hk', ih]

theorem dictSet_lookup_self (d : Doc) (k : String) (v : PyVal) :
    (dictSet d k v).lookup k = some v := by
  unfold dictSet
  split
  · next h => exact lookup_map_replace_self d k v h
  · next h =>
      have hnone : d.lookup k = none := by
        cases hh : d.lookup k
        · rfl
        · rw [hh] at h
          simp at h
      rw [lookup_append, hnone]
      exact lookup_cons_self k v []

theorem dictSet_lookup_ne (d : Doc) {k k' : String} (v : PyVal) (h : k' ≠ k) :
    (dictSet d k v).lookup k' = d.lookup k' := by
  unfold dictSet
  split
  · next => exact lookup_map_replace_ne d v h
  · next =>
      rw [lookup_append]
      cases hh : d.lookup k'
      · show List.lookup k' [(k, v)] = none
        rw [lookup_cons_ne _ _ h]
        rfl
      · rfl

theorem applySet_lookup (d : Doc) : ∀ (m : Doc) (f : String),
    (applySet m d).lookup f =
      match lastAssoc d f with
      | some v => some v
      | none => m.lookup f := by
  induction d with
  | nil => intro m f; rfl
  | cons e rest ih =>
      intro m f
      obtain ⟨k, v⟩ := e
      have hstep : applySet m ((k, v) :: rest) = applySet (dictSet m k v) rest := by
        simp [applySet]
      rw [hstep, ih]
      cases hla : lastAssoc rest f
      · by_cases hkf : k = f
        · subst hkf
          rw [dictSet_lookup_self]
          simp [lastAssoc, hla]
        · rw [dictSet_lookup_ne _ _ (fun hh => hkf hh.symm)]
          simp [lastAssoc, hla, hkf]
      · simp [lastAssoc, hla]

theorem upChain_some_eq (ds : List Doc) : ∀ m : Doc,
    upChain (some m) ds = some (chainSet m ds) := by
  induction ds with
  | nil => intro m; rfl
  | cons d rest ih =>
      intro m
      show upChain (some (applySet m d)) rest = _
      rw [ih (applySet m d)]
      rfl

theorem upChain_none_cons (d : Doc) (ds : List Doc) :
    upChain none (d :: ds) = some (chainSet d ds) := by
  show upChain (some d) ds = _
  rw [upChain_some_eq]

theorem chainSet_lookup (ds : List Doc) : ∀ (m : Doc) (f : String),
    (chainSet m ds).lookup f =
      match lastProvided ds f with
      | some v => some v
      | none => m.lookup f := by
  induction ds with
  | nil => intro m f; rfl
  | cons d rest ih =>
      intro m f
      show (chainSet (applySet m d) rest).lookup f = _
      rw [ih (applySet m d) f]
      cases hlp : lastProvided rest f
      · rw [applySet_lookup]
        cases hla : lastAssoc d f
        · simp [lastProvided, hlp, hla]
        · simp [lastProvided, hlp, hla]
      · simp [lastProvided, hlp]

theorem lastAssoc_eq_none_of_not_mem_keys {β : Type} {l : List (String × β)} {f : String}
    (h : f ∉ l.map Prod.fst) : lastAssoc l f = none := by
  induction l with
  | nil => rfl
  | cons a t ih =>
      simp only [List.map_cons, List.mem_cons] at h
      push_neg at h
      have ht := ih h.2
      have ha : ¬ a.1 = f := fun hh => h.1 hh.symm
      simp [lastAssoc, ht, ha]

theorem lookup_eq_lastAssoc_of_nodup {β : Type} {l : List (String × β)}
    (hn : (l.map Prod.fst).Nodup) : ∀ f, l.lookup f = lastAssoc l f := by
  induction l with
  | nil => intro f; rfl
  | cons a t ih =>
      intro f
      obtain ⟨a1, a2⟩ := a
      simp only [List.map_cons, List.nodup_cons] at hn
      by_cases hf : f = a1
      · subst hf
        rw [lookup_cons_self]
        have : lastAssoc t f = none :=
          lastAssoc_eq_none_of_not_mem_keys hn.1
        simp [lastAssoc, this]
      · rw [lookup_cons_ne _ _ hf, ih hn.2 f]
        cases hla : lastAssoc t f
        · have ha : ¬ a1 = f := fun hh => hf hh.symm
          simp [lastAssoc, hla, ha]
        · simp [lastAssoc, hla]

theorem keys_map_replace (d : Doc) (k : String) (v : PyVal) :
    (d.map (fun kv => if kv.1 = k then (k, v) else kv)).map Prod.fst =
      d.map Prod.fst := by
  induction d with
  | nil => rfl
  | cons a t ih =>
      obtain ⟨a1, a2⟩ := a
      simp only [List.map_cons]
      by_cases h : a1 = k
      · subst h
        simp only [if_true]
        rw [ih]
      · rw [if_neg h]
        simp only [List.map_cons] at ih ⊢
        rw [ih]

theorem lookup_isSome_iff_mem_keys {β : Type} (l : List (String × β)) (k : String) :
    (l.lookup k).isSome = true ↔ k ∈ l.map Prod.fst := by
  induction l with
  | nil => simp [List.lookup]
  | cons a t ih =>
      obtain ⟨a1, a2⟩ := a
      by_cases hk : k = a1
      · subst hk
        rw [lookup_cons_self]
        simp
      · rw [lookup_cons_ne _ _ hk]
        simp only [List.map_cons, List.mem_cons]
        rw [ih]
        constructor
        · exact Or.inr
        · rintro (h | h)
          · exact absurd h hk
          · exact h

theorem dictSet_mem_keys (m : Doc) (k : String) (v : PyVal) (f : String) :
    f ∈ (dictSet m k v).map Prod.fst ↔ f ∈ m.map Prod.fst ∨ f = k := by
  unfold dictSet
  split
  · next h =>
      rw [keys_map_replace]
      constructor
      · exact Or.inl
      · rintro (hf | rfl)
        · exact hf
        · exact (lookup_isSome_iff_mem_keys m f).mp h
  · next =>
      simp

theorem dictSet_keys_of_mem (m : Doc) (k : String) (v : PyVal)
    (h : (m.lookup k).isSome = true) :
    (dictSet m k v).map Prod.fst = m.map Prod.fst := by
  unfold dictSet
  rw [if_pos h]
  exact keys_map_replace m k v

theorem dictSet_keys_nodup (m : Doc) (k : String) (v : PyVal)
    (hn : (m.map Prod.fst).Nodup) : ((dictSet m k v).map Prod.fst).Nodup := by
  unfold dictSet
  split
  · next =>
      rw [keys_map_replace]
      exact hn
  · next h =>
      have hk : k ∉ m.map Prod.fst := by
        intro hmem
        exact h ((lookup_isSome_iff_mem_keys m k).mpr hmem)
      simp only [List.map_append, List.map_cons, List.map_nil]
      rw [List.nodup_append]
      refine ⟨hn, List.nodup_singleton k, ?_⟩
      intro a ha hak
      rw [List.mem_singleton] at hak
      subst hak
      exact hk ha

theorem applySet_mem_keys (d : Doc) : ∀ (m : Doc) (f : String),
    f ∈ (applySet m d).map Prod.fst ↔ f ∈ m.map Prod.fst ∨ f ∈ d.map Prod.fst := by
  induction d with
  | nil => intro m f; simp [applySet]
  | cons e rest ih =>
      intro m f
      obtain ⟨k, v⟩ := e
      have hstep : applySet m ((k, v) :: rest) = applySet (dictSet m k v) rest := by
        simp [applySet]
      rw [hstep, ih, dictSet_mem_keys]
      simp only [List.map_cons, List.mem_cons]
      tauto

theorem applySet_keys_of_subkeys (d : Doc) : ∀ (m : Doc),
    (∀ f ∈ d.map Prod.fst, f ∈ m.map Prod.fst) →
    (applySet m d).map Prod.fst = m.map Prod.fst := by
  induction d with
  | nil => intro m _; rfl
  | cons e rest ih =>
      intro m hsub
      obtain ⟨k, v⟩ := e
      have hstep : applySet m ((k, v) :: rest) = applySet (dictSet m k v) rest := by
        simp [applySet]
      have hkm : k ∈ m.map Prod.fst := hsub k (by simp)
      have hkeys : (dictSet m k v).map Prod.fst = m.map Prod.fst :=
        dictSet_keys_of_mem m k v ((lookup_isSome_iff_mem_keys m k).mpr hkm)
      rw [hstep, ih (dictSet m k v) ?_, hkeys]
      intro f hf
      rw [hkeys]
      exact hsub f (by simp [hf])

theorem applySet_keys_nodup (d : Doc) : ∀ (m : Doc),
    (m.map Prod.fst).Nodup → ((applySet m d).map Prod.fst).Nodup := by
  induction d with
  | nil => intro m h; exact h
  | cons e rest ih =>
      intro m hn
      obtain ⟨k, v⟩ := e
      have hstep : applySet m ((k, v) :: rest) = applySet (dictSet m k v) rest := by
        simp [applySet]
      rw [hstep]
      exact ih _ (dictSet_keys_nodup m k v hn)

theorem chainSet_mem_keys (ds : List Doc) : ∀ (m : Doc) (f : String),
    f ∈ (chainSet m ds).map Prod.fst ↔
      f ∈ m.map Prod.fst ∨ ∃ d ∈ ds, f ∈ d.map Prod.fst := by
  induction ds with
  | nil => intro m f; simp [chainSet]
  | cons d rest ih =>
      intro m f
      show f ∈ (chainSet (applySet m d) rest).map Prod.fst ↔ _
      rw [ih, applySet_mem_keys]
      simp only [List.mem_cons]
      constructor
      · rintro ((h | h) | ⟨d', hd', hf⟩)
        · exact Or.inl h
        · exact Or.inr ⟨d, Or.inl rfl, h⟩
        · exact Or.inr ⟨d', Or.inr hd', hf⟩
      · rintro (h | ⟨d', (rfl | hd'), hf⟩)
        · exact Or.inl (Or.inl h)
        · exact Or.inl (Or.inr hf)
        · exact Or.inr ⟨d', hd', hf⟩

theorem chainSet_keys_of_subkeys (ds : List Doc) : ∀ (m : Doc),
    (∀ d ∈ ds, ∀ f ∈ d.map Prod.fst, f ∈ m.map Prod.fst) →
    (chainSet m ds).map Prod.fst = m.map Prod.fst := by
  induction ds with
  | nil => intro m _; rfl
  | cons d rest ih =>
      intro m hsub
      show (chainSet (applySet m d) rest).map Prod.fst = _
      have hd : (applySet m d).map Prod.fst = m.map Prod.fst :=
        applySet_keys_of_subkeys d m (hsub d (by simp))
      rw [ih (applySet m d) ?_, hd]
      intro d' hd' f hf
      rw [hd]
      exact hsub d' (by simp [hd']) f hf

theorem chainSet_keys_nodup (ds : List Doc) : ∀ (m : Doc),
    (m.map Prod.fst).Nodup → ((chainSet m ds).map Prod.fst).Nodup := by
  induction ds with
  | nil => intro m h; exact h
  | cons d rest ih =>
      intro m hn
      exact ih (applySet m d) (applySet_keys_nodup d m hn)

theorem assoc_ext {β : Type} : ∀ (xs ys : List (String × β)),
    xs.map Prod.fst = ys.map Prod.fst → (xs.map Prod.fst).Nodup →
    (∀ f, xs.lookup f = ys.lookup f) → xs = ys := by
  intro xs
  induction xs with
  | nil =>
      intro ys hkeys _ _
      have : ys.map Prod.fst = [] := hkeys.symm
      cases ys with
      | nil => rfl
      | cons b u => simp at this
  | cons a t ih =>
      intro ys hkeys hnodup hlook
      obtain ⟨a1, a2⟩ := a
      cases ys with
      | nil => simp at hkeys
      | cons b u =>
          obtain ⟨b1, b2⟩ := b
          simp only [List.map_cons, List.cons.injEq] at hkeys
          obtain ⟨hb1, hku⟩ := hkeys
          subst hb1
          simp only [List.map_cons, List.nodup_cons] at hnodup
          have hval : a2 = b2 := Option.some.inj (by
            have h := hlook a1
            rwa [lookup_cons_self, lookup_cons_self] at h)
          subst hval
          have htail : t = u := by
            apply ih u hku hnodup.2
            intro f
            by_cases hf : f = a1
            · subst hf
              rw [lookup_eq_none_of_not_mem_keys hnodup.1,
                lookup_eq_none_of_not_mem_keys (hku ▸ hnodup.1)]
            · have := hlook f
              rwa [lookup_cons_ne _ _ hf, lookup_cons_ne _ _ hf] at this
          rw [htail]

/-- A stored document already reflecting every field the batch provides is
a fixed point of the batch's `$set` chain. -/
theorem chainSet_fix (ds : List Doc) (M : Doc)
    (hnodup : (M.map Prod.fst).Nodup)
    (hsub : ∀ d ∈ ds, ∀ f ∈ d.map Prod.fst, f ∈ M.map Prod.fst)
    (hfix : ∀ f v, lastProvided ds f = some v → M.lookup f = some v) :
    chainSet M ds = M := by
  apply assoc_ext
  · exact chainSet_keys_of_subkeys ds M hsub
  · exact chainSet_keys_nodup ds M hnodup
  · intro f
    rw [chainSet_lookup]
    cases hlp : lastProvided ds f
    · rfl
    · next v => exact (hfix f v hlp).symm

theorem upsertDoc_lookup (s : Store) (d : Doc) (k : String) :
    upsertDoc s d k =
      if k = docKey d then
        match s (docKey d) with
        | some o => some (applySet o d)
        | none => some d
      else s k := by
  unfold upsertDoc upsertStep
  cases hs : s (docKey d) <;> simp [hs]

theorem applyUpsert_lookup (b : List Doc) : ∀ (s : Store) (k : String),
    applyUpsert s b k = upChain (s k) (b.filter (fun d => docKey d == k)) := by
  induction b with
  | nil => intro s k; rfl
  | cons d rest ih =>
      intro s k
      show applyUpsert (upsertDoc s d) rest k = _
      rw [ih (upsertDoc s d) k]
      by_cases hk : docKey d = k
      · have hfil : (d :: rest).filter (fun x => docKey x == k) =
            d :: rest.filter (fun x => docKey x == k) := by
          simp [List.filter_cons, hk]
        rw [hfil]
        have hsk : upsertDoc s d k =
            match s k with
            | some o => some (applySet o d)
            | none => some d := by
          rw [upsertDoc_lookup, if_pos hk.symm, hk]
        rw [hsk]
        cases hs : s k
        · rfl
        · rfl
      · have hfil : (d :: rest).filter (fun x => docKey x == k) =
            rest.filter (fun x => docKey x == k) := by
          simp [List.filter_cons, hk]
        rw [hfil]
        have hsk : upsertDoc s d k = s k := by
          rw [upsertDoc_lookup, if_neg (fun hh => hk hh.symm)]
        rw [hsk]

/-- Re-applying an upsert batch leaves the store unchanged. -/
theorem applyUpsert_twice (b : List Doc)
    (hn : ∀ d ∈ b, (d.map Prod.fst).Nodup) :
    applyUpsert (applyUpsert emptyStore b) b = applyUpsert emptyStore b := by
  funext k
  rw [applyUpsert_lookup b (applyUpsert emptyStore b) k,
    applyUpsert_lookup b emptyStore k]
  show upChain (upChain (emptyStore k) _) _ = upChain (emptyStore k) _
  show upChain (upChain none _) _ = upChain none _
  cases hfr : b.filter (fun d => docKey d == k) with
  | nil => rfl
  | cons d rest =>
      have hdb : d ∈ b := (List.mem_filter.mp (hfr ▸ List.mem_cons_self d rest)).1
      have hrestb : ∀ d' ∈ rest, d' ∈ b := by
        intro d' hd'
        exact (List.mem_filter.mp (hfr ▸ List.mem_cons_of_mem d hd')).1
      rw [upChain_none_cons, upChain_some_eq]
      congr 1
      set M := chainSet d rest with hM
      have hMkeys : ∀ f, f ∈ (M.map Prod.fst) ↔
          f ∈ d.map Prod.fst ∨ ∃ d' ∈ rest, f ∈ d'.map Prod.fst := by
        intro f
        rw [hM, chainSet_mem_keys]
      apply chainSet_fix
      · exact chainSet_keys_nodup rest d (hn d hdb)
      · intro d' hd' f hf
        rcases List.mem_cons.mp hd' with rfl | hmem
        · exact (hMkeys f).mpr (Or.inl hf)
        · exact (hMkeys f).mpr (Or.inr ⟨d', hmem, hf⟩)
      · intro f v hlp
        rw [hM, chainSet_lookup]
        cases hrest : lastProvided rest f
        · have hla : lastAssoc d f = some v := by
            have : lastProvided (d :: rest) f = lastAssoc d f := by
              simp [lastProvided, hrest]
            rw [this] at hlp
            exact hlp
          rw [lookup_eq_lastAssoc_of_nodup (hn d hdb) f, hla]
        · next w =>
            have hvw : w = v := by
              have : lastProvided (d :: rest) f = some w := by
                simp [lastProvided, hrest]
              rw [this] at hlp
              injection hlp
            rw [hvw]

/-- A key is stored exactly when some batch document carries it. -/
theorem applyUpsert_mem_keys (b : List Doc) (k : String) :
    applyUpsert emptyStore b k ≠ none ↔ k ∈ b.map docKey := by
  rw [applyUpsert_lookup b emptyStore k]
  show upChain none _ ≠ none ↔ _
  cases hfr : b.filter (fun d => docKey d == k) with
  | nil =>
      simp only [upChain, List.foldl_nil, ne_eq, not_true_eq_false, false_iff]
      intro hmem
      obtain ⟨d, hd, hdk⟩ := List.mem_map.mp hmem
      have : d ∈ b.filter (fun d => docKey d == k) :=
        List.mem_filter.mpr ⟨hd, by simp [hdk]⟩
      rw [hfr] at this
      exact absurd this (List.not_mem_nil d)
  | cons d rest =>
      rw [upChain_none_cons]
      simp only [ne_eq, reduceCtorEq, not_false_eq_true, true_iff]
      have : d ∈ b.filter (fun x => docKey x == k) := hfr ▸ List.mem_cons_self d rest
      obtain ⟨hd, hdk⟩ := List.mem_filter.mp this
      exact List.mem_map.mpr ⟨d, hd, by simpa using hdk⟩

theorem lastDocWith_none_filter (k : String) : ∀ (b : List Doc),
    lastDocWith b k = none → b.filter (fun d => docKey d == k) = [] := by
  intro b
  induction b with
  | nil => intro _; rfl
  | cons d rest ih =>
      intro h
      unfold lastDocWith at h
      cases hr : lastDocWith rest k with
      | some d' => rw [hr] at h; exact absurd h (by simp)
      | none =>
          rw [hr] at h
          by_cases hk : docKey d = k
          · rw [if_pos hk] at h
            exact absurd h (by simp)
          · rw [if_neg hk] at h
            simp [List.filter_cons, hk, ih hr]

theorem lastProvided_filter (k f : String) (v : PyVal) :
    ∀ (b : List Doc) (d : Doc), lastDocWith b k = some d → lastAssoc d f = some v →
      lastProvided (b.filter (fun x => docKey x == k)) f = some v := by
  intro b
  induction b with
  | nil =>
      intro d h _
      exact absurd h (by simp [lastDocWith])
  | cons x rest ih =>
      intro d h hla
      by_cases hk : docKey x = k
      · have hfil : (x :: rest).filter (fun y => docKey y == k) =
            x :: rest.filter (fun y => docKey y == k) := by
          simp [List.filter_cons, hk]
        rw [hfil]
        cases hr : lastDocWith rest k with
        | some d' =>
            have hd : d' = d := by
              unfold lastDocWith at h
              rw [hr] at h
              injection h
            have hrec := ih d' hr (hd.symm ▸ hla)
            simp [lastProvided, hrec]
        | none =>
            have hd : x = d := by
              unfold lastDocWith at h
              rw [hr, if_pos hk] at h
              injection h
            have hfe : rest.filter (fun y => docKey y == k) = [] :=
              lastDocWith_none_filter k rest hr
            rw [hfe]
            subst hd
            simp [lastProvided, hla]
      · have hfil : (x :: rest).filter (fun y => docKey y == k) =
            rest.filter (fun y => docKey y == k) := by
          simp [List.filter_cons, hk]
        rw [hfil]
        cases hr : lastDocWith rest k with
        | some d' =>
            have hd : d' = d := by
              unfold lastDocWith at h
              rw [hr] at h
              injection h
            exact ih d' hr (hd.symm ▸ hla)
        | none =>
            unfold lastDocWith at h
            rw [hr, if_neg hk] at h
            exact absurd h (by simp)

/-- The field values the last same-key document of a batch carries are the
values stored for that key. -/
theorem applyUpsert_lastWrite (b : List Doc)
    (hn : ∀ d ∈ b, (d.map Prod.fst).Nodup)
    (k f : String) (d : Doc) (v : PyVal)
    (hd : lastDocWith b k = some d) (hf : lastAssoc d f = some v) :
    ∃ m, applyUpsert emptyStore b k = some m ∧ m.lookup f = some v := by
  have hlp := lastProvided_filter k f v b d hd hf
  rw [applyUpsert_lookup b emptyStore k]
  cases hfr : b.filter (fun x => docKey x == k) with
  | nil =>
      rw [hfr] at hlp
      exact absurd hlp (by simp [lastProvided])
  | cons d₁ rest₁ =>
      rw [hfr] at hlp
      show ∃ m, upChain none (d₁ :: rest₁) = some m ∧ _
      rw [upChain_none_cons]
      refine ⟨chainSet d₁ rest₁, rfl, ?_⟩
      rw [chainSet_lookup]
      have hd₁b : d₁ ∈ b := (List.mem_filter.mp (hfr ▸ List.mem_cons_self d₁ rest₁)).1
      cases hrest : lastProvided rest₁ f with
      | some w =>
          have hwv : w = v := by
            simp only [lastProvided, hrest] at hlp
            injection hlp
          subst hwv
          rfl
      | none =>
          have hla : lastAssoc d₁ f = some v := by
            simpa only [lastProvided, hrest] using hlp
          show List.lookup f d₁ = some v
          rw [lookup_eq_lastAssoc_of_nodup (hn d₁ hd₁b) f, hla]

/-- Claim C3 (amended): writing a batch of canonical-record documents
twice in upsert mode stores exactly one document per distinct record key
(a key is stored iff some batch document carries it); re-applying the
identical batch does not change the store; and every top-level field
carried by the last same-key document is stored with that document's
value — but a field absent from the last write may persist from an earlier
same-key write, so the stored document need not equal the last write. -/
theorem claim_C3 (b : List Doc) (hn : ∀ d ∈ b, (d.map Prod.fst).Nodup) :
    applyUpsert (applyUpsert emptyStore b) b = applyUpsert emptyStore b ∧
    (∀ k, applyUpsert emptyStore b k ≠ none ↔ k ∈ b.map docKey) ∧
    (∀ k d f v, lastDocWith b k = some d → lastAssoc d f = some v →
      ∃ m, applyUpsert emptyStore b k = some m ∧ m.lookup f = some v) :=
  ⟨applyUpsert_twice b hn, fun k => applyUpsert_mem_keys b k,
   fun k d f v hd hf => applyUpsert_lastWrite b hn k f d v hd hf⟩

/-- Counterexample to C3 as stated: two same-key transformed documents
where the first carries an audio-features group the second lacks; the
stored document keeps that group and therefore differs from the last
write. -/
theorem claim_C3_counterexample :
    docKey (transform0 mergeRow1) = docKey (transform0 mergeRow2) ∧
      applyUpsert emptyStore [transform0 mergeRow1, transform0 mergeRow2]
          (docKey (transform0 mergeRow2)) ≠ some (transform0 mergeRow2) := by
  constructor
  · rfl
  · decide

/-- Witness for C3 at a concrete one-document batch. -/
theorem claim_C3_witness :
    applyUpsert (applyUpsert emptyStore demoDocBatch) demoDocBatch =
      applyUpsert emptyStore demoDocBatch :=
  (claim_C3 demoDocBatch (by decide)).1

/-- Claim C6 (amended): the record key is derived deterministically from
the cleaned (trackURI, username, rawTimestampString) triple joined with
`_` — rows with identical raw triples receive identical keys, and on a
same-key upsert every field the later document carries wins — but the
delimiter also occurs inside components, so distinct triples may collide
(the claimed `only if` direction fails). -/
theorem claim_C6 :
    (∀ r1 r2 : Row,
      getColD r1 "spotify_track_uri" (.str "") = getColD r2 "spotify_track_uri" (.str "") →
      getColD r1 "username" (.str "") = getColD r2 "username" (.str "") →
      getColD r1 "ts_x" (.str "") = getColD r2 "ts_x" (.str "") →
      recordId r1 = recordId r2) ∧
    (∀ (d1 d2 : Doc) (f : String) (v : PyVal), docKey d2 = docKey d1 →
      lastAssoc d2 f = some v →
      ∃ m, applyUpsert emptyStore [d1, d2] (docKey d1) = some m ∧
        m.lookup f = some v) := by
  constructor
  · intro r1 r2 h1 h2 h3
    unfold recordId
    rw [h1, h2, h3]
  · intro d1 d2 f v hk hf
    have h1 : applyUpsert emptyStore [d1, d2] (docKey d1) = some (applySet d1 d2) := by
      show upsertDoc (upsertDoc emptyStore d1) d2 (docKey d1) = _
      rw [upsertDoc_lookup, hk, if_pos rfl, upsertDoc_lookup, if_pos rfl]
      rfl
    refine ⟨applySet d1 d2, h1, ?_⟩
    rw [applySet_lookup, hf]

/-- Counterexample to C6 as stated: two rows with different raw key
triples whose record keys nevertheless coincide. -/
theorem claim_C6_counterexample :
    recordId collideRowA = recordId collideRowB ∧
      getCol collideRowA "spotify_track_uri" ≠ getCol collideRowB "spotify_track_uri" := by
  decide

/-- Witness for C6: the later of two same-key transformed documents wins
on the fields it carries (here the `timestamp` field). -/
theorem claim_C6_witness :
    ∃ m, applyUpsert emptyStore [transform0 mergeRow1, transform0 mergeRow2]
        (docKey (transform0 mergeRow1)) = some m ∧
      m.lookup "timestamp" = some (PyVal.leaf .null) :=
  claim_C6.2 (transform0 mergeRow1) (transform0 mergeRow2) "timestamp"
    (PyVal.leaf .null) (by decide) (by decide)

/-- Claim C10: every record key is a non-empty string; when all three key
components are blank each renders as the literal `None`, giving the key
`None_None_None`, and a batch of such documents occupies only that single
key of the store. -/
theorem claim_C10 :
    (∀ row : Row,
      cleanV (getColD row "spotify_track_uri" (.str "")) = none →
      cleanV (getColD row "username" (.str "")) = none →
      cleanV (getColD row "ts_x" (.str "")) = none →
      recordId row = "None_None_None") ∧
    (∀ row : Row, recordId row ≠ "") ∧
    (∀ b : List Doc, (∀ d ∈ b, docKey d = "None_None_None") →
      ∀ k, applyUpsert emptyStore b k ≠ none → k = "None_None_None") := by
  refine ⟨?_, ?_, ?_⟩
  · intro row h1 h2 h3
    unfold recordId fstrClean
    rw [h1, h2, h3]
    rfl
  · intro row h
    unfold recordId at h
    have hlen := congrArg String.length h
    simp [String.length_append] at hlen
    exact absurd hlen.1.1.1.2 (by decide)
  · intro b hb k hk
    obtain ⟨d, hd, hdk⟩ := List.mem_map.mp ((applyUpsert_mem_keys b k).mp hk)
    rw [← hdk]
    exact hb d hd

/-- Witness for C10 at the empty row. -/
theorem claim_C10_witness :
    (cleanV (getColD blankRow "spotify_track_uri" (.str "")) = none ∧
      cleanV (getColD blankRow "username" (.str "")) = none ∧
      cleanV (getColD blankRow "ts_x" (.str "")) = none) ∧
      recordId blankRow = "None_None_None" :=
  ⟨⟨rfl, rfl, rfl⟩, claim_C10.1 blankRow rfl rfl rfl⟩

/-! ## Lemmas: the row transformer -/

theorem ov_truthy_no_typeError (x : Option Value) (h : pyTruthy (ov x) = true) :
    pyFloatE (ov x) ≠ Except.error PyErr.typeError := by
  cases x with
  | none => simp [ov, pyTruthy] at h
  | some v =>
      cases v with
      | null => simp [ov, pyTruthy] at h
      | str s =>
          simp only [ov, pyFloatE]
          cases strToRat? s <;> simp
      | num q => simp [ov, pyFloatE]
      | bool b => simp [ov, pyFloatE]

theorem completionRate_ok (x y : Option Value) :
    ∃ c, completionRate (ov x) (ov y) = .ok c := by
  unfold completionRate
  by_cases h : (pyTruthy (ov x) && pyTruthy (ov y)) = true
  · rw [if_pos h]
    have hx := ov_truthy_no_typeError x (Bool.and_eq_true _ _ |>.mp h).1
    have hy := ov_truthy_no_typeError y (Bool.and_eq_true _ _ |>.mp h).2
    cases hfx : pyFloatE (ov x) with
    | error e =>
        cases e with
        | typeError => exact absurd hfx hx
        | valueError => exact ⟨none, rfl⟩
        | zeroDivisionError => exact ⟨none, rfl⟩
        | attributeError => exact ⟨none, rfl⟩
    | ok m =>
        cases hfy : pyFloatE (ov y) with
        | error e =>
            cases e with
            | typeError => exact absurd hfy hy
            | valueError => exact ⟨none, rfl⟩
            | zeroDivisionError => exact ⟨none, rfl⟩
            | attributeError => exact ⟨none, rfl⟩
        | ok dq =>
            by_cases hd : dq = 0
            · exact ⟨none, by simp [hd]⟩
            · exact ⟨some (min (m / dq) 1), by simp [hd]⟩
  · rw [if_neg h]
    exact ⟨none, rfl⟩

/-- The transformed document, explicitly: the completion-rate computation
succeeds and the result is the cleaned-up eleven-entry dictionary. -/
theorem transform_record_eq (td : Value → Option ℚ) (now : ℚ) (row : Row) :
    ∃ cr, completionRate (ov (cleanV (getCol row "ms_played_x")))
        (ov (cleanV (getCol row "Track Duration (ms)_releases"))) = .ok cr ∧
      transform_record td now row = .ok (cleanupDoc
        [("_id", .leaf (.str (recordId row))),
         ("spotify_track_uri", .leaf (ov (cleanV (getCol row "spotify_track_uri")))),
         ("timestamp", .leaf (oq (parse_timestamp td (getCol row "ts_x")))),
         ("user", .dict (mkUserDict row)),
         ("track", .dict (mkTrackDict row)),
         ("album", .dict (mkAlbumDict row)),
         ("artist", .dict (mkArtistDict row)),
         ("listening", .dict (mkListeningDict row cr)),
         ("audio_features", .dict (mkAudioDict row)),
         ("metadata", .dict (mkMetadataDict td row)),
         ("migration", .dict
            [("created_at", .rat now), ("source", .str "csv_import"),
             ("version", .str "1.0")])]) := by
  obtain ⟨cr, hcr⟩ := completionRate_ok (cleanV (getCol row "ms_played_x"))
    (cleanV (getCol row "Track Duration (ms)_releases"))
  refine ⟨cr, hcr, ?_⟩
  unfold transform_record
  rw [hcr]
  rfl

/-- Totality of the transformer, for internal use by the loop lemmas. -/
theorem transform_total (td : Value → Option ℚ) (now : ℚ) (row : Row) :
    ∃ d, transform_record td now row = .ok d := by
  obtain ⟨cr, _, h⟩ := transform_record_eq td now row
  exact ⟨_, h⟩

/-- Claim C9: the transformer is total — for every raw row of primitive
values it returns a document, never an uncaught exception (the only
uncaught path, a `TypeError` out of the completion-rate block, is
unreachable because the truthiness guard rules out `None` inputs). -/
theorem claim_C9 (td : Value → Option ℚ) (now : ℚ) (row : Row) :
    ∃ d, transform_record td now row = .ok d := by
  obtain ⟨cr, _, h⟩ := transform_record_eq td now row
  exact ⟨_, h⟩

theorem cleanEntry_key {kv kv' : String × PyVal} (h : cleanEntry kv = some kv') :
    kv'.1 = kv.1 := by
  obtain ⟨k0, v0⟩ := kv
  cases v0 with
  | leaf v =>
      unfold cleanEntry at h
      split at h
      · injection h with h'
        rw [← h']
      · injection h with h'
        rw [← h']
  | dict g =>
      unfold cleanEntry at h
      split at h
      · simp only at h
        split at h
        · exact absurd h (by simp)
        · injection h with h'
          rw [← h']
      · injection h with h'
        rw [← h']

theorem cleanEntry_group {e : String × PyVal} {k : String} {g : List (String × PyLeaf)}
    (hgk : k ∈ groupKeys) (h : cleanEntry e = some (k, .dict g)) :
    g ≠ [] ∧ ∀ x ∈ g, x.2 ≠ PyLeaf.null := by
  obtain ⟨k0, v0⟩ := e
  have hkey : k = k0 := cleanEntry_key h
  subst hkey
  unfold cleanEntry at h
  rw [if_pos hgk] at h
  cases v0 with
  | leaf v => simp at h
  | dict g0 =>
      simp only at h
      split at h
      · exact absurd h (by simp)
      · next hne =>
          injection h with h'
          have hg : g = g0.filter (fun x => decide (x.2 ≠ PyLeaf.null)) := by
            have h2 := congrArg Prod.snd h'
            simp only at h2
            injection h2 with h3
            exact h3.symm
          subst hg
          refine ⟨hne, ?_⟩
          intro x hx
          have := (List.mem_filter.mp hx).2
          simpa using this

theorem cleanup_group_sound : ∀ (es : List (String × PyVal)) (k : String),
    k ∈ groupKeys → ∀ g, (cleanupDoc es).lookup k = some (.dict g) →
      g ≠ [] ∧ ∀ x ∈ g, x.2 ≠ PyLeaf.null := by
  intro es
  induction es with
  | nil =>
      intro k _ g h
      exact absurd h (by simp [cleanupDoc, List.lookup])
  | cons e rest ih =>
      intro k hk g h
      rw [cleanupDoc, List.filterMap_cons] at h
      cases hc : cleanEntry e with
      | none =>
          rw [hc] at h
          exact ih k hk g h
      | some e' =>
          rw [hc] at h
          obtain ⟨k1, v1⟩ := e'
          by_cases hkk : k = k1
          · subst hkk
            rw [lookup_cons_self] at h
            have hv : v1 = .dict g := by injection h
            subst hv
            exact cleanEntry_group hk hc
          · rw [lookup_cons_ne _ _ hkk] at h
            exact ih k hk g h

theorem cleanup_lookup_ne (e : String × PyVal) (es : List (String × PyVal))
    (k : String) (h : e.1 ≠ k) :
    (cleanupDoc (e :: es)).lookup k = (cleanupDoc es).lookup k := by
  unfold cleanupDoc
  rw [List.filterMap_cons]
  cases hc : cleanEntry e with
  | none => rfl
  | some e' =>
      obtain ⟨k1, v1⟩ := e'
      have hkey : k1 = e.1 := cleanEntry_key hc
      exact lookup_cons_ne _ _ (fun hh => h (hkey.symm.trans hh.symm))

theorem cleanup_lookup_cons_self_nongroup (k : String) (v : PyVal)
    (es : List (String × PyVal)) (hk : k ∉ groupKeys) :
    (cleanupDoc ((k, v) :: es)).lookup k = some v := by
  unfold cleanupDoc
  rw [List.filterMap_cons]
  have hce : cleanEntry (k, v) = some (k, v) := by
    unfold cleanEntry
    rw [if_neg hk]
  rw [hce]
  exact lookup_cons_self _ _ _

theorem filter_ne_nil_of_mem {β : Type} {l : List (String × β)} {e : String × β}
    (p : String × β → Bool) (hm : e ∈ l) (hp : p e = true) : l.filter p ≠ [] := by
  intro h
  have := List.mem_filter.mpr ⟨hm, hp⟩
  rw [h] at this
  exact absurd this (List.not_mem_nil e)

theorem cleanup_lookup_group_cons (k : String) (g : List (String × PyLeaf))
    (es : List (String × PyVal)) (hk : k ∈ groupKeys)
    (hne : g.filter (fun x => decide (x.2 ≠ PyLeaf.null)) ≠ []) :
    (cleanupDoc ((k, .dict g) :: es)).lookup k =
      some (.dict (g.filter (fun x => decide (x.2 ≠ PyLeaf.null)))) := by
  unfold cleanupDoc
  rw [List.filterMap_cons]
  have hce : cleanEntry (k, .dict g) =
      some (k, .dict (g.filter (fun x => decide (x.2 ≠ PyLeaf.null)))) := by
    unfold cleanEntry
    rw [if_pos hk]
    simp only
    rw [if_neg hne]
  rw [hce]
  exact lookup_cons_self _ _ _

theorem lookup_filter_of_nodup {β : Type} (p : String × β → Bool) :
    ∀ (l : List (String × β)), (l.map Prod.fst).Nodup → ∀ f,
    (l.filter p).lookup f =
      match l.lookup f with
      | some v => if p (f, v) then some v else none
      | none => none := by
  intro l
  induction l with
  | nil => intro _ f; rfl
  | cons a t ih =>
      intro hn f
      obtain ⟨a1, a2⟩ := a
      simp only [List.map_cons, List.nodup_cons] at hn
      have hkeysub : ((t.filter p).map Prod.fst) ⊆ t.map Prod.fst :=
        (List.Sublist.map Prod.fst (List.filter_sublist t)).subset
      by_cases hf : f = a1
      · subst hf
        rw [List.filter_cons, lookup_cons_self]
        by_cases hp : p (f, a2) = true
        · rw [if_pos hp, lookup_cons_self]
          show some a2 = if p (f, a2) = true then some a2 else none
          rw [if_pos hp]
        · rw [if_neg hp]
          have hnot : f ∉ (t.filter p).map Prod.fst := fun hmem => hn.1 (hkeysub hmem)
          rw [lookup_eq_none_of_not_mem_keys hnot]
          show (none : Option β) = if p (f, a2) = true then some a2 else none
          rw [if_neg hp]
      · rw [List.filter_cons, lookup_cons_ne _ _ hf]
        by_cases hp : p (a1, a2) = true
        · rw [if_pos hp, lookup_cons_ne _ _ hf, ih hn.2 f]
        · rw [if_neg hp, ih hn.2 f]

/-- The stored `listening` group of a transformed document: the cleaned
listening dictionary, always present (its boolean fields survive). -/
theorem transform_listening (td : Value → Option ℚ) (now : ℚ) (row : Row) (d : Doc)
    (h : transform_record td now row = .ok d) :
    ∃ cr, completionRate (ov (cleanV (getCol row "ms_played_x")))
        (ov (cleanV (getCol row "Track Duration (ms)_releases"))) = .ok cr ∧
      d.lookup "listening" =
        some (.dict ((mkListeningDict row cr).filter
          (fun x => decide (x.2 ≠ PyLeaf.null)))) := by
  obtain ⟨cr, hcr, heq⟩ := transform_record_eq td now row
  rw [h] at heq
  have hd := Except.ok.inj heq
  subst hd
  refine ⟨cr, hcr, ?_⟩
  rw [cleanup_lookup_ne _ _ _ (by simp), cleanup_lookup_ne _ _ _ (by simp),
    cleanup_lookup_ne _ _ _ (by simp), cleanup_lookup_ne _ _ _ (by simp),
    cleanup_lookup_ne _ _ _ (by simp), cleanup_lookup_ne _ _ _ (by simp),
    cleanup_lookup_ne _ _ _ (by simp)]
  exact cleanup_lookup_group_cons "listening" (mkListeningDict row cr) _ (by decide)
    (filter_ne_nil_of_mem _
      (show ("skipped", PyLeaf.boolV (pyBool (cleanV (getColD row "skipped" (.bool false))))) ∈
          mkListeningDict row cr by simp [mkListeningDict])
      (by simp))

/-- The stored top-level `spotify_track_uri` field of a transformed
document: always present, null when the source value is blank. -/
theorem transform_uri (td : Value → Option ℚ) (now : ℚ) (row : Row) (d : Doc)
    (h : transform_record td now row = .ok d) :
    d.lookup "spotify_track_uri" =
      some (.leaf (ov (cleanV (getCol row "spotify_track_uri")))) := by
  obtain ⟨cr, hcr, heq⟩ := transform_record_eq td now row
  rw [h] at heq
  have hd := Except.ok.inj heq
  subst hd
  rw [cleanup_lookup_ne _ _ _ (by simp)]
  exact cleanup_lookup_cons_self_nongroup _ _ _ (by decide)

/-- The stored `album` group of a transformed document: always present
(its genres list survives). -/
theorem transform_album (td : Value → Option ℚ) (now : ℚ) (row : Row) (d : Doc)
    (h : transform_record td now row = .ok d) :
    d.lookup "album" =
      some (.dict ((mkAlbumDict row).filter (fun x => decide (x.2 ≠ PyLeaf.null)))) := by
  obtain ⟨cr, hcr, heq⟩ := transform_record_eq td now row
  rw [h] at heq
  have hd := Except.ok.inj heq
  subst hd
  rw [cleanup_lookup_ne _ _ _ (by simp), cleanup_lookup_ne _ _ _ (by simp),
    cleanup_lookup_ne _ _ _ (by simp), cleanup_lookup_ne _ _ _ (by simp),
    cleanup_lookup_ne _ _ _ (by simp)]
  exact cleanup_lookup_group_cons "album" (mkAlbumDict row) _ (by decide)
    (filter_ne_nil_of_mem _
      (show ("genres", PyLeaf.list (parse_genres (getCol row "Album Genres"))) ∈
          mkAlbumDict row by simp [mkAlbumDict])
      (by simp))

/-- The completion rate a transformed document stores is exactly the one
the completion-rate computation produced. -/
theorem docCR_transform (td : Value → Option ℚ) (now : ℚ) (row : Row) (d : Doc)
    (h : transform_record td now row = .ok d) :
    ∃ cr, completionRate (ov (cleanV (getCol row "ms_played_x")))
        (ov (cleanV (getCol row "Track Duration (ms)_releases"))) = .ok cr ∧
      docCR d = cr.map PyLeaf.rat := by
  obtain ⟨cr, hcr, hlk⟩ := transform_listening td now row d h
  refine ⟨cr, hcr, ?_⟩
  unfold docCR
  rw [hlk]
  show ((mkListeningDict row cr).filter
      (fun x => decide (x.2 ≠ PyLeaf.null))).lookup "completion_rate" = _
  have hkeys : (mkListeningDict row cr).map Prod.fst =
      ["ms_played", "skipped", "reason_start", "reason_end", "shuffle", "offline",
       "completion_rate"] := rfl
  rw [lookup_filter_of_nodup _ (mkListeningDict row cr) (by rw [hkeys]; decide)
    "completion_rate"]
  have hlook : (mkListeningDict row cr).lookup "completion_rate" = some (oq cr) := rfl
  rw [hlook]
  cases cr with
  | none => rfl
  | some q => rfl

theorem completionRate_some_le_one {ms dur : PyLeaf} {q : ℚ}
    (h : completionRate ms dur = .ok (some q)) : q ≤ 1 := by
  unfold completionRate at h
  by_cases ht : (pyTruthy ms && pyTruthy dur) = true
  · rw [if_pos ht] at h
    cases hfx : pyFloatE ms with
    | error e =>
        rw [hfx] at h
        cases e <;> simp at h
    | ok m =>
        rw [hfx] at h
        cases hfy : pyFloatE dur with
        | error e =>
            rw [hfy] at h
            cases e <;> simp at h
        | ok dq =>
            rw [hfy] at h
            have h1 : (if dq = 0 then (Except.ok none : Except PyErr (Option ℚ))
                else Except.ok (some (min (m / dq) 1))) = Except.ok (some q) := h
            by_cases hd : dq = 0
            · rw [if_pos hd] at h1
              simp at h1
            · rw [if_neg hd] at h1
              have h3 : some (min (m / dq) 1) = some q := by injection h1
              have hq : min (m / dq) 1 = q := by injection h3
              rw [← hq]
              exact min_le_right _ _
  · rw [if_neg ht] at h
    simp at h

/-- Claim C4 (amended): the stored completion rate is
`min(msPlayed/durationMs, 1)` — clamped above at 1 but not below at 0.
It lies in `[0,1]` whenever both inputs are present (truthy) and parse to
numbers with `msPlayed ≥ 0` and `durationMs > 0`; when either input is
absent, zero, unparsable, or the division is undefined, it stays absent;
the relational path computes the same upper-clamped quotient for positive
durations.  (The unconditional `[0,1]` bound of the claim fails for
negative inputs.) -/
theorem claim_C4 (td : Value → Option ℚ) (now : ℚ) (row : Row) (d : Doc)
    (h : transform_record td now row = .ok d) :
    (∀ q, docCR d = some (.rat q) → q ≤ 1) ∧
    ((pyTruthy (ov (cleanV (getCol row "ms_played_x"))) &&
        pyTruthy (ov (cleanV (getCol row "Track Duration (ms)_releases")))) = false →
      docCR d = none) ∧
    (∀ m du : ℚ,
      pyFloatE (ov (cleanV (getCol row "ms_played_x"))) = .ok m →
      pyFloatE (ov (cleanV (getCol row "Track Duration (ms)_releases"))) = .ok du →
      0 ≤ m → 0 < du →
      (pyTruthy (ov (cleanV (getCol row "ms_played_x"))) &&
        pyTruthy (ov (cleanV (getCol row "Track Duration (ms)_releases")))) = true →
      docCR d = some (.rat (min (m / du) 1)) ∧
        0 ≤ min (m / du) 1 ∧ min (m / du) 1 ≤ 1) ∧
    (∀ m du : ℚ, 0 ≤ m → 0 < du →
      ∃ q, supaCompletionRate m du = some q ∧ 0 ≤ q ∧ q ≤ 1) := by
  obtain ⟨cr, hcr, hdc⟩ := docCR_transform td now row d h
  refine ⟨?_, ?_, ?_, ?_⟩
  · intro q hq
    rw [hdc] at hq
    cases cr with
    | none => exact absurd hq (by simp)
    | some q' =>
        have hq2 : some (PyLeaf.rat q') = some (PyLeaf.rat q) := hq
        have h3 : PyLeaf.rat q' = PyLeaf.rat q := by injection hq2
        have hq' : q' = q := by injection h3
        subst hq'
        exact completionRate_some_le_one hcr
  · intro hfalse
    have : completionRate (ov (cleanV (getCol row "ms_played_x")))
        (ov (cleanV (getCol row "Track Duration (ms)_releases"))) = .ok none := by
      unfold completionRate
      rw [hfalse]
      rfl
    rw [this] at hcr
    have hcrn : cr = none := by
      injection hcr with h1
      exact h1.symm
    rw [hdc, hcrn]
    rfl
  · intro m du hm hdu hm0 hdu0 htrue
    have hne : ¬ du = 0 := ne_of_gt hdu0
    have hval : completionRate (ov (cleanV (getCol row "ms_played_x")))
        (ov (cleanV (getCol row "Track Duration (ms)_releases"))) =
          .ok (some (min (m / du) 1)) := by
      unfold completionRate
      rw [htrue, if_pos rfl, hm, hdu]
      show (if du = 0 then (Except.ok none : Except PyErr (Option ℚ))
          else Except.ok (some (min (m / du) 1))) = _
      rw [if_neg hne]
    rw [hval] at hcr
    have hcrv : cr = some (min (m / du) 1) := by
      injection hcr with h1
      exact h1.symm
    refine ⟨by rw [hdc, hcrv]; rfl, le_min (div_nonneg hm0 (le_of_lt hdu0)) zero_le_one,
      min_le_right _ _⟩
  · intro m du hm0 hdu0
    refine ⟨min (m / du) 1, ?_, le_min (div_nonneg hm0 (le_of_lt hdu0)) zero_le_one,
      min_le_right _ _⟩
    unfold supaCompletionRate
    rw [if_pos hdu0]

/-- Counterexample to C4 as stated: a present, negative `ms_played` with a
positive duration stores the completion rate `-1/2`, outside `[0,1]`, on
both backends. -/
theorem claim_C4_counterexample :
    pyTruthy (ov (cleanV (getCol negRow "ms_played_x"))) = true ∧
    pyTruthy (ov (cleanV (getCol negRow "Track Duration (ms)_releases"))) = true ∧
    docCR (transform0 negRow) = some (.rat (min ((-1 : ℚ) / 2) 1)) ∧
    min ((-1 : ℚ) / 2) 1 < 0 ∧
    supaCompletionRate (-1) 2 = some (min ((-1 : ℚ) / 2) 1) := by
  have hmin : min ((-1 : ℚ) / 2) 1 = -1 / 2 := min_eq_left (by norm_num)
  refine ⟨rfl, rfl, rfl, by rw [hmin]; norm_num, ?_⟩
  unfold supaCompletionRate
  rw [if_pos (by norm_num : (0 : ℚ) < 2)]

/-- Witness for C4 at a half-played row. -/
theorem claim_C4_witness :
    docCR (transform0 posRow) = some (.rat (min ((90000 : ℚ) / 180000) 1)) ∧
      0 ≤ min ((90000 : ℚ) / 180000) 1 ∧ min ((90000 : ℚ) / 180000) 1 ≤ 1 :=
  (claim_C4 (fun _ => none) 0 posRow (transform0 posRow) rfl).2.2.1 90000 180000
    rfl rfl (by norm_num) (by norm_num) rfl

/-- Claim C7 (amended): inside the seven nested groups, `None`-valued
fields are dropped and an emptied group is omitted, so a present group is
non-empty and stores no nulls; but blank sources do not always become
absent: the coerced booleans (`skipped` here) are stored as `False`, the
genre list is stored as `[]`, and the top-level `spotify_track_uri` is
stored as null. -/
theorem claim_C7 (td : Value → Option ℚ) (now : ℚ) (row : Row) (d : Doc)
    (h : transform_record td now row = .ok d) :
    (∀ k, k ∈ groupKeys → ∀ g, d.lookup k = some (.dict g) →
      g ≠ [] ∧ ∀ x ∈ g, x.2 ≠ PyLeaf.null) ∧
    d.lookup "spotify_track_uri" =
      some (.leaf (ov (cleanV (getCol row "spotify_track_uri")))) ∧
    (∃ g, d.lookup "listening" = some (.dict g) ∧
      g.lookup "skipped" =
        some (.boolV (pyBool (cleanV (getColD row "skipped" (.bool false)))))) ∧
    (∃ g, d.lookup "album" = some (.dict g) ∧
      g.lookup "genres" = some (.list (parse_genres (getCol row "Album Genres")))) := by
  obtain ⟨cr, hcr, heq⟩ := transform_record_eq td now row
  rw [h] at heq
  have hd := Except.ok.inj heq
  refine ⟨?_, transform_uri td now row d h, ?_, ?_⟩
  · intro k hk g hg
    rw [hd] at hg
    exact cleanup_group_sound _ k hk g hg
  · obtain ⟨cr', hcr', hlk⟩ := transform_listening td now row d h
    refine ⟨_, hlk, ?_⟩
    have hkeys : (mkListeningDict row cr').map Prod.fst =
        ["ms_played", "skipped", "reason_start", "reason_end", "shuffle", "offline",
         "completion_rate"] := rfl
    rw [lookup_filter_of_nodup _ (mkListeningDict row cr') (by rw [hkeys]; decide)
      "skipped"]
    have hlook : (mkListeningDict row cr').lookup "skipped" =
        some (.boolV (pyBool (cleanV (getColD row "skipped" (.bool false))))) := rfl
    rw [hlook]
    simp
  · have hlk := transform_album td now row d h
    refine ⟨_, hlk, ?_⟩
    have hkeys : (mkAlbumDict row).map Prod.fst =
        ["name", "uri", "artist_name", "artist_uri", "release_date", "image_url",
         "genres", "label"] := rfl
    rw [lookup_filter_of_nodup _ (mkAlbumDict row) (by rw [hkeys]; decide) "genres"]
    have hlook : (mkAlbumDict row).lookup "genres" =
        some (.list (parse_genres (getCol row "Album Genres"))) := rfl
    rw [hlook]
    simp

/-- Counterexample to C7 as stated: blank sources that are stored rather
than absent — a blank uri stored as a top-level null, a blank skipped flag
stored as `False`, a blank genre cell stored as `[]`. -/
theorem claim_C7_counterexample :
    cleanV (getCol blankValsRow "spotify_track_uri") = none ∧
    (transform0 blankValsRow).lookup "spotify_track_uri" = some (.leaf .null) ∧
    cleanV (getColD blankValsRow "skipped" (.bool false)) = none ∧
    (transform0 blankValsRow).lookup "listening" =
      some (.dict [("skipped", .boolV false), ("shuffle", .boolV false),
        ("offline", .boolV false)]) ∧
    cleanV (getCol blankValsRow "Album Genres") = none ∧
    (transform0 blankValsRow).lookup "album" = some (.dict [("genres", .list [])]) := by
  decide

/-- Witness for C7 at the blank-valued row. -/
theorem claim_C7_witness :
    ∃ g, (transform0 blankValsRow).lookup "listening" = some (.dict g) ∧
      g.lookup "skipped" =
        some (.boolV (pyBool (cleanV (getColD blankValsRow "skipped" (.bool false))))) :=
  (claim_C7 (fun _ => none) 0 blankValsRow (transform0 blankValsRow) rfl).2.2.1

/-! ## Lemmas: batch-write accounting -/

theorem upsertFold_sum : ∀ (b : List Doc) (s : Store) (u m n : ℕ),
    (b.foldl upStepFun (s, u, m, n)).2.1 + (b.foldl upStepFun (s, u, m, n)).2.2.1 +
      (b.foldl upStepFun (s, u, m, n)).2.2.2 = u + m + n + b.length := by
  intro b
  induction b with
  | nil =>
      intro s u m n
      simp only [List.foldl_nil, List.length_nil]
      omega
  | cons d rest ih =>
      intro s u m n
      rw [List.foldl_cons]
      rcases hstep : upsertStep s d with ⟨st', kind⟩
      cases kind with
      | upsertedNew =>
          have hf : upStepFun (s, u, m, n) d = (st', u + 1, m, n) := by
            unfold upStepFun
            rw [hstep]
          rw [hf, ih st' (u + 1) m n]
          simp only [List.length_cons]
          omega
      | modifiedOld =>
          have hf : upStepFun (s, u, m, n) d = (st', u, m + 1, n) := by
            unfold upStepFun
            rw [hstep]
          rw [hf, ih st' u (m + 1) n]
          simp only [List.length_cons]
          omega
      | matchedNoop =>
          have hf : upStepFun (s, u, m, n) d = (st', u, m, n + 1) := by
            unfold upStepFun
            rw [hstep]
          rw [hf, ih st' u m (n + 1)]
          simp only [List.length_cons]
          omega

theorem runUpsertBatch_sum (s : Store) (b : List Doc) :
    (runUpsertBatch s b).2.1 + (runUpsertBatch s b).2.2.1 +
      (runUpsertBatch s b).2.2.2 = b.length := by
  have h := upsertFold_sum b s 0 0 0
  simpa [runUpsertBatch] using h

theorem insFold_full : ∀ (b : List Doc) (s : Store) (c : ℕ) (e : Bool),
    (b.foldl insStepFun (s, c, e)).2.2 = false →
      e = false ∧ (b.foldl insStepFun (s, c, e)).2.1 = c + b.length := by
  intro b
  induction b with
  | nil =>
      intro s c e h
      simp only [List.foldl_nil] at h ⊢
      exact ⟨h, by simp⟩
  | cons d rest ih =>
      intro s c e h
      rw [List.foldl_cons] at h ⊢
      rcases hstep : insertStep s d with ⟨st', e'⟩
      have hf : insStepFun (s, c, e) d = (st', if e' then c else c + 1, e || e') := by
        unfold insStepFun
        rw [hstep]
      rw [hf] at h ⊢
      obtain ⟨hor, hcnt⟩ := ih st' (if e' then c else c + 1) (e || e') h
      obtain ⟨he, he'⟩ := Bool.or_eq_false_iff.mp hor
      subst he
      subst he'
      refine ⟨rfl, ?_⟩
      have hone : (if (false : Bool) then c else c + 1) = c + 1 := by simp
      rw [hone] at hcnt
      rw [hone, hcnt]
      simp only [List.length_cons]
      omega

theorem runInsertBatch_full (s : Store) (b : List Doc)
    (h : (runInsertBatch s b).2.2 = false) :
    (runInsertBatch s b).2.1 = b.length := by
  have h2 := (insFold_full b s 0 false (by simpa [runInsertBatch] using h)).2
  simpa [runInsertBatch] using h2

/-- One flushed batch adds its length to `inserted + updated + failed`
plus the model-level noop tally, and leaves `processed` untouched. -/
theorem execBatch_acct (updateMode fail : Bool) (st : RunState) (ops : List Doc) :
    (execBatch updateMode fail st ops).stats.processed = st.stats.processed ∧
    (execBatch updateMode fail st ops).stats.inserted +
      (execBatch updateMode fail st ops).stats.updated +
      (execBatch updateMode fail st ops).stats.failed +
      (execBatch updateMode fail st ops).noops =
      st.stats.inserted + st.stats.updated + st.stats.failed + st.noops +
        ops.length := by
  unfold execBatch
  by_cases hfail : fail = true
  · rw [if_pos hfail]
    refine ⟨rfl, ?_⟩
    show st.stats.inserted + st.stats.updated + (st.stats.failed + ops.length) +
        st.noops = _
    omega
  · rw [if_neg hfail]
    by_cases hu : updateMode = true
    · rw [if_pos hu]
      have hsum := runUpsertBatch_sum st.store ops
      refine ⟨rfl, ?_⟩
      show st.stats.inserted + (runUpsertBatch st.store ops).2.1 +
          (st.stats.updated + (runUpsertBatch st.store ops).2.2.1) +
          st.stats.failed + (st.noops + (runUpsertBatch st.store ops).2.2.2) = _
      omega
    · rw [if_neg hu]
      by_cases herr : (runInsertBatch st.store ops).2.2 = true
      · rw [if_pos herr]
        refine ⟨rfl, ?_⟩
        show st.stats.inserted + st.stats.updated + (st.stats.failed + ops.length) +
            st.noops = _
        omega
      · rw [if_neg herr]
        have hcnt := runInsertBatch_full st.store ops (by
          cases hx : (runInsertBatch st.store ops).2.2
          · rfl
          · exact absurd hx herr)
        refine ⟨rfl, ?_⟩
        show st.stats.inserted + (runInsertBatch st.store ops).2.1 +
            st.stats.updated + st.stats.failed + st.noops = _
        omega

theorem migrateLoop_cons_err {td : Value → Option ℚ} {nowAt : ℕ → ℚ} {um : Bool}
    {bs : ℕ} {failAt : ℕ → Bool} {row : Row} {rest : List Row} {idx fi : ℕ}
    {pending : List Doc} {st : RunState} {e : PyErr}
    (h : transform_record td (nowAt idx) row = .error e) :
    migrateLoop td nowAt um bs failAt (row :: rest) idx fi pending st =
      migrateLoop td nowAt um bs failAt rest (idx + 1) fi pending
        { st with stats := { st.stats with failed := st.stats.failed + 1 } } := by
  rw [migrateLoop, h]

theorem migrateLoop_cons_ok {td : Value → Option ℚ} {nowAt : ℕ → ℚ} {um : Bool}
    {bs : ℕ} {failAt : ℕ → Bool} {row : Row} {rest : List Row} {idx fi : ℕ}
    {pending : List Doc} {st : RunState} {doc : Doc}
    (h : transform_record td (nowAt idx) row = .ok doc) :
    migrateLoop td nowAt um bs failAt (row :: rest) idx fi pending st =
      if bs ≤ (pending ++ [doc]).length then
        migrateLoop td nowAt um bs failAt rest (idx + 1) (fi + 1) []
          (execBatch um (failAt fi)
            { st with stats := { st.stats with processed := st.stats.processed + 1 } }
            (pending ++ [doc]))
      else
        migrateLoop td nowAt um bs failAt rest (idx + 1) fi (pending ++ [doc])
          { st with stats := { st.stats with processed := st.stats.processed + 1 } } := by
  rw [migrateLoop, h]

/-- The loop invariant: processed rows are accounted by the committed
counters plus the pending batch. -/
theorem migrateLoop_acct (td : Value → Option ℚ) (nowAt : ℕ → ℚ) (um : Bool)
    (bs : ℕ) (failAt : ℕ → Bool) :
    ∀ (rows : List Row) (idx fi : ℕ) (pending : List Doc) (st : RunState),
      st.stats.processed = st.stats.inserted + st.stats.updated + st.stats.failed +
        st.noops + pending.length →
      (migrateLoop td nowAt um bs failAt rows idx fi pending st).stats.processed =
        (migrateLoop td nowAt um bs failAt rows idx fi pending st).stats.inserted +
        (migrateLoop td nowAt um bs failAt rows idx fi pending st).stats.updated +
        (migrateLoop td nowAt um bs failAt rows idx fi pending st).stats.failed +
        (migrateLoop td nowAt um bs failAt rows idx fi pending st).noops := by
  intro rows
  induction rows with
  | nil =>
      intro idx fi pending st hinv
      rw [migrateLoop]
      by_cases hp : pending.length > 0
      · rw [if_pos hp]
        obtain ⟨hproc, hsum⟩ := execBatch_acct um (failAt fi) st pending
        rw [hproc, hsum]
        omega
      · rw [if_neg hp]
        omega
  | cons row rest ih =>
      intro idx fi pending st hinv
      obtain ⟨doc, hdoc⟩ := transform_total td (nowAt idx) row
      rw [migrateLoop_cons_ok hdoc]
      by_cases hflush : bs ≤ (pending ++ [doc]).length
      · rw [if_pos hflush]
        apply ih
        obtain ⟨hproc, hsum⟩ := execBatch_acct um (failAt fi)
          { st with stats := { st.stats with processed := st.stats.processed + 1 } }
          (pending ++ [doc])
        rw [hproc, hsum]
        simp only [List.length_append, List.length_cons, List.length_nil]
        omega
      · rw [if_neg hflush]
        apply ih
        simp only [List.length_append, List.length_cons, List.length_nil]
        omega

/-- Claim C5 (amended): after any document-backend run — any batch size,
either write mode, backend failures injected at any batches — the
statistics satisfy `processed = inserted + updated + failed + noops`,
where `noops` counts the upserts that matched an existing document without
changing it (pymongo's `matched_count - modified_count`, which the source
does not add to any counter).  The claimed identity without the `noops`
term holds exactly when no successful update-mode batch contains such a
no-op operation; insert-mode runs always satisfy it. -/
theorem claim_C5 (td : Value → Option ℚ) (nowAt : ℕ → ℚ) (um : Bool) (bs : ℕ)
    (failAt : ℕ → Bool) (rows : List Row) :
    (migrate_csv_data td nowAt um bs failAt rows).stats.processed =
      (migrate_csv_data td nowAt um bs failAt rows).stats.inserted +
      (migrate_csv_data td nowAt um bs failAt rows).stats.updated +
      (migrate_csv_data td nowAt um bs failAt rows).stats.failed +
      (migrate_csv_data td nowAt um bs failAt rows).noops :=
  migrateLoop_acct td nowAt um bs failAt rows 0 0 []
    { store := emptyStore,
      stats := { totalRecords := rows.length, processed := 0, inserted := 0,
                 updated := 0, failed := 0 },
      noops := 0 }
    (by simp)

/-- Counterexample to C5 as stated: two identical rows in update mode.
The second upsert matches an identical stored document, so pymongo counts
it neither upserted nor modified: `processed = 2` but
`inserted + updated + failed = 1`. -/
theorem claim_C5_counterexample :
    (migrate_csv_data (fun _ => none) (fun _ => 0) true 1000 (fun _ => false)
        [dupRow, dupRow]).stats.processed = 2 ∧
    (migrate_csv_data (fun _ => none) (fun _ => 0) true 1000 (fun _ => false)
        [dupRow, dupRow]).stats.inserted = 1 ∧
    (migrate_csv_data (fun _ => none) (fun _ => 0) true 1000 (fun _ => false)
        [dupRow, dupRow]).stats.updated = 0 ∧
    (migrate_csv_data (fun _ => none) (fun _ => 0) true 1000 (fun _ => false)
        [dupRow, dupRow]).stats.failed = 0 ∧
    (2 : ℕ) ≠ 1 + 0 + 0 :=
  ⟨rfl, rfl, rfl, rfl, by decide⟩

/-! ## Lemmas: phase-2 accounting -/

theorem lhFold_count (td : Value → Option ℚ) (users : List (Value × String))
    (tracks : List (String × String)) :
    ∀ (rows : List Row) (n : ℕ) (fs : List FactRow),
      (rows.foldl
        (fun acc row =>
          match lh_step td users tracks row with
          | .push fr => (acc.1 + 1, acc.2 ++ [fr])
          | _ => acc)
        (n, fs)).1 =
        n + rows.countP (fun r => (lh_step td users tracks r).isPush) := by
  intro rows
  induction rows with
  | nil =>
      intro n fs
      simp
  | cons r rest ih =>
      intro n fs
      rw [List.foldl_cons, List.countP_cons]
      cases hstep : lh_step td users tracks r with
      | push fr =>
          rw [ih (n + 1) (fs ++ [fr])]
          simp [hstep, LhStep.isPush]
          omega
      | skipFk =>
          rw [ih n fs]
          simp [hstep, LhStep.isPush]
      | skipTs =>
          rw [ih n fs]
          simp [hstep, LhStep.isPush]
      | err e =>
          rw [ih n fs]
          simp [hstep, LhStep.isPush]

/-- Claim C8 (amended): the phase-2 writer's `inserted_count` is exactly
the number of rows whose step pushes a fact row, and every row is
classified into exactly one of pushed / FK-skipped / timestamp-skipped /
exception-skipped — the run processes all rows and never aborts — but the
skipped rows are reflected in no counter at all (the source maintains no
failure statistic; `inserted_count` is its only output). -/
theorem claim_C8 (td : Value → Option ℚ) (users : List (Value × String))
    (tracks : List (String × String)) (rows : List Row) :
    (lh_run td users tracks rows).1 =
      rows.countP (fun r => (lh_step td users tracks r).isPush) ∧
    rows.countP (fun r => (lh_step td users tracks r).isPush) +
      rows.countP (fun r => (lh_step td users tracks r).isFk) +
      rows.countP (fun r => (lh_step td users tracks r).isTs) +
      rows.countP (fun r => (lh_step td users tracks r).isErr) = rows.length := by
  constructor
  · have h := lhFold_count td users tracks rows 0 []
    simpa [lh_run] using h
  · induction rows with
    | nil => simp
    | cons r rest ih =>
        simp only [List.countP_cons, List.length_cons]
        cases hstep : lh_step td users tracks r with
        | push fr =>
            rw [show (if (LhStep.push fr).isPush = true then (1:ℕ) else 0) = 1 from rfl,
              show (if (LhStep.push fr).isFk = true then (1:ℕ) else 0) = 0 from rfl,
              show (if (LhStep.push fr).isTs = true then (1:ℕ) else 0) = 0 from rfl,
              show (if (LhStep.push fr).isErr = true then (1:ℕ) else 0) = 0 from rfl]
            omega
        | skipFk =>
            rw [show (if LhStep.skipFk.isPush = true then (1:ℕ) else 0) = 0 from rfl,
              show (if LhStep.skipFk.isFk = true then (1:ℕ) else 0) = 1 from rfl,
              show (if LhStep.skipFk.isTs = true then (1:ℕ) else 0) = 0 from rfl,
              show (if LhStep.skipFk.isErr = true then (1:ℕ) else 0) = 0 from rfl]
            omega
        | skipTs =>
            rw [show (if LhStep.skipTs.isPush = true then (1:ℕ) else 0) = 0 from rfl,
              show (if LhStep.skipTs.isFk = true then (1:ℕ) else 0) = 0 from rfl,
              show (if LhStep.skipTs.isTs = true then (1:ℕ) else 0) = 1 from rfl,
              show (if LhStep.skipTs.isErr = true then (1:ℕ) else 0) = 0 from rfl]
            omega
        | err e =>
            rw [show (if (LhStep.err e).isPush = true then (1:ℕ) else 0) = 0 from rfl,
              show (if (LhStep.err e).isFk = true then (1:ℕ) else 0) = 0 from rfl,
              show (if (LhStep.err e).isTs = true then (1:ℕ) else 0) = 0 from rfl,
              show (if (LhStep.err e).isErr = true then (1:ℕ) else 0) = 1 from rfl]
            omega

/-- Counterexample to C8 as stated: a row whose user foreign key is
unresolvable is skipped but counted nowhere — the entire phase output over
the two-row input equals the output over the input without the bad row,
so no statistic reflects it as failed; the run does not abort (the good
row is still inserted). -/
theorem claim_C8_counterexample :
    lh_step tdDemo umapDemo tmapDemo fkRow = .skipFk ∧
    lh_run tdDemo umapDemo tmapDemo [fkRow, okRow] =
      lh_run tdDemo umapDemo tmapDemo [okRow] ∧
    (lh_run tdDemo umapDemo tmapDemo [fkRow, okRow]).1 = 1 := by
  refine ⟨by decide, by decide, by decide⟩

/-- Witness for C2: the Daft Punk input extracts artist entities and the
run aborts with 42P10. -/
theorem claim_C2_witness :
    extractArtists daftRows ≠ [] ∧
      insert_entities daftRows = .error SqlErr.invalidConflictTarget :=
  ⟨by decide, claim_C2.1 daftRows (by decide)⟩

end Doved
